import Mathlib

/-!
# Matrix multiplication driver (`matrix_mult.c`)

A shallow embedding of `matrix_mult.c`: `allocate_matrix`, `free_matrix`,
`read_matrix`, `multiply_serial`, `multiply_parallel`, `write_matrix` and `main`,
together with the library behaviour they rely on (IEEE 754 binary64 arithmetic,
`fscanf` conversions `%d` and `%lf`, `fprintf` conversion `%.2lf`).

Modelling conventions.

* `double` is IEEE 754 binary64 with round-to-nearest-even, the default rounding
  mode; every operation is rounded once to binary64 (no extended precision, no
  fused multiply-add). The sign and payload of a NaN are not tracked.
* `int` is a 32-bit two's complement integer. Signed overflow and the conversion
  of an out-of-range number by `%d` are undefined behaviour, outcome `Res.ub`.
* `size_t` has 64 bits. `calloc` and `malloc` succeed for every request below
  `2 ^ 63` bytes and return a null pointer for larger ones, which is what a
  negative `int` count turns into.
* Reading or writing outside an allocated block is undefined behaviour.
* `fscanf` follows the C standard: after white space a conversion takes the longest
  text that is, or starts, a number in the expected format, and fails when that
  text is no complete number; `%lf` rounds correctly. `fprintf` with `%.2lf` rounds
  the exact value to hundredths, ties to even.
* A file system maps a path to its contents when the file can be opened for
  reading, and records which paths can be opened for writing. The diagnostics on
  `stderr` and the two timing lines on `stdout` are not part of the model.
* The OpenMP work-sharing loop is modelled by the order in which its iterations are
  carried out; every permutation of the iteration space is a possible order.
-/

namespace MatrixMult

/-! ## IEEE 754 binary64 -/

/-- Values of the C type `double`. `fin s m e` is `(-1)^s * m * 2^e`. -/
inductive Double where
  | fin (neg : Bool) (m : Nat) (e : Int)
  | inf (neg : Bool)
  | nan
  deriving DecidableEq, Repr

/-- Canonical binary64 encodings: 53-bit significand, exponent range of binary64,
subnormals and zero at the least exponent. -/
def Double.Canonical : Double → Prop
  | .fin _ m e => m < 2 ^ 53 ∧ -1074 ≤ e ∧ e ≤ 971 ∧ (m < 2 ^ 52 → e = -1074)
  | _ => True

/-- Finite values (neither infinite nor NaN) in canonical encoding. -/
def Double.Finite : Double → Prop
  | .fin s m e => Double.Canonical (.fin s m e)
  | _ => False

/-- Positive zero, the value of a `calloc`-ed `double`. -/
def Double.zero : Double := .fin false 0 (-1074)

/-- Negative zero. -/
def Double.negZero : Double := .fin true 0 (-1074)

/-- The value `1.0`. -/
def Double.one : Double := .fin false (2 ^ 52) (-52)

/-- Floor of the binary logarithm, by halving; the first argument bounds the depth. -/
def log2Fuel : Nat → Nat → Nat
  | 0, _ => 0
  | f + 1, n => if n < 2 then 0 else log2Fuel f (n / 2) + 1

/-- Floor of the binary logarithm of a positive number. -/
def ilog2 (n : Nat) : Nat := log2Fuel n n

/-- Round to nearest, ties to even, of the fraction `num / den`. -/
def roundHalfEven (num den : Nat) : Nat :=
  let q := num / den
  let r := num % den
  if 2 * r < den then q
  else if den < 2 * r then q + 1
  else if q % 2 = 0 then q else q + 1

/-- Rounding of the positive real `n / d * 2^x` (with `0 < n`, `0 < d`) to binary64,
to nearest with ties to even, overflowing to infinity and underflowing gradually. -/
def Double.round (neg : Bool) (n d : Nat) (x : Int) : Double :=
  let l : Int := (ilog2 n : Int) - (ilog2 d : Int)
  -- `2^(l-1) < n/d < 2^(l+1)`; `fl` is the floor of the binary logarithm of `n/d`
  let fl : Int :=
    if (0 ≤ l ∧ d * 2 ^ l.toNat ≤ n) ∨ (l < 0 ∧ d ≤ n * 2 ^ (-l).toNat) then l else l - 1
  let e : Int := max (fl + x - 52) (-1074)
  let sh : Int := x - e
  let num : Nat := if 0 ≤ sh then n * 2 ^ sh.toNat else n
  let den : Nat := if 0 ≤ sh then d else d * 2 ^ (-sh).toNat
  let m := roundHalfEven num den
  let m' : Nat := if m = 2 ^ 53 then 2 ^ 52 else m
  let e' : Int := if m = 2 ^ 53 then e + 1 else e
  if 971 < e' then .inf neg else .fin neg m' e'

/-- Multiplication of `double`s. -/
def Double.mul : Double → Double → Double
  | .nan, _ => .nan
  | _, .nan => .nan
  | .inf s, .inf t => .inf (xor s t)
  | .inf s, .fin t m _ => if m = 0 then .nan else .inf (xor s t)
  | .fin s m _, .inf t => if m = 0 then .nan else .inf (xor s t)
  | .fin s m₁ e₁, .fin t m₂ e₂ =>
    if m₁ * m₂ = 0 then .fin (xor s t) 0 (-1074)
    else Double.round (xor s t) (m₁ * m₂) 1 (e₁ + e₂)

/-- Addition of `double`s. -/
def Double.add : Double → Double → Double
  | .nan, _ => .nan
  | _, .nan => .nan
  | .inf s, .inf t => if s = t then .inf s else .nan
  | .inf s, .fin _ _ _ => .inf s
  | .fin _ _ _, .inf t => .inf t
  | .fin s m₁ e₁, .fin t m₂ e₂ =>
    let e : Int := min e₁ e₂
    let a : Int := (if s then -1 else 1) * ((m₁ * 2 ^ (e₁ - e).toNat : Nat) : Int)
    let b : Int := (if t then -1 else 1) * ((m₂ * 2 ^ (e₂ - e).toNat : Nat) : Int)
    let c : Int := a + b
    if c = 0 then .fin (s && t) 0 (-1074)
    else Double.round (decide (c < 0)) c.natAbs 1 e

instance : Add Double := ⟨Double.add⟩
instance : Mul Double := ⟨Double.mul⟩

/-- The `double` nearest to a natural number. -/
def Double.ofNat (n : Nat) : Double :=
  if n = 0 then Double.zero else Double.round false n 1 0

/-- The zeros of either sign. -/
def Double.IsZero (x : Double) : Prop := x = Double.zero ∨ x = Double.negZero

/-- Replaces negative zero by positive zero and leaves every other value alone. -/
def Double.dropZeroSign (x : Double) : Double :=
  if x = Double.negZero then Double.zero else x

/-- Comparison `==` of C on `double`s: zeros of either sign are equal, NaN is
equal to nothing. -/
def Double.ceq : Double → Double → Bool
  | .fin s m e, .fin t m' e' => (m = 0 ∧ m' = 0) ∨ (s = t ∧ m = m' ∧ e = e')
  | .inf s, .inf t => s = t
  | _, _ => false

/-! ## Outcomes, memory and loops -/

/-- Outcome of a call: normal return, termination of the process by `exit(status)`,
or undefined behaviour. -/
inductive Res (α : Type) where
  | ok (a : α)
  | exit (status : Int)
  | ub
  deriving DecidableEq, Repr

/-- Sequencing: the continuation runs only after a normal return. -/
def Res.bind {α β : Type} : Res α → (α → Res β) → Res β
  | .ok a, f => f a
  | .exit c, _ => .exit c
  | .ub, _ => .ub

instance : Monad Res where
  pure := Res.ok
  bind := Res.bind

/-- `EXIT_SUCCESS`. -/
def EXIT_SUCCESS : Int := 0

/-- `EXIT_FAILURE`. -/
def EXIT_FAILURE : Int := 1

/-- Representability in `int`. -/
def inInt (x : Int) : Prop := -2 ^ 31 ≤ x ∧ x < 2 ^ 31

instance (x : Int) : Decidable (inInt x) := by unfold inInt; exact inferInstance

/-- A `double **` as built by `allocate_matrix`: `data` is the block returned by
`calloc` (empty for a null pointer or a block of size zero), `row` is the block
returned by `malloc` (empty likewise), where `row[i]` is the index in `data` of the
element that `matrix[i]` points to. -/
structure Matrix where
  data : List Double
  row : List Int
  deriving DecidableEq, Repr

/-- The loop `for (int i = start; i < start + n; i++) body`, threading the state. -/
def forLoop {σ : Type} (body : Nat → σ → Res σ) : Nat → Nat → σ → Res σ
  | 0, _, s => .ok s
  | n + 1, i, s => (body i s).bind (forLoop body n (i + 1))

/-- Runs `body` on the items of a list, in list order, threading the state. -/
def forEach {α σ : Type} (body : α → σ → Res σ) : List α → σ → Res σ
  | [], s => .ok s
  | a :: as, s => (body a s).bind (forEach body as)

/-- `allocate_matrix`, lines 7-14. The product `rows * cols` is computed in `int`. A
negative count, converted to `size_t`, makes `calloc` (and `malloc`) return a null
pointer. The row handles are recorded as indices; forming `&data[i * cols]`
outside the block is not flagged here but at the access. -/
def allocate_matrix (rows cols : Int) : Res Matrix :=
  if inInt (rows * cols) then
    .ok { data := List.replicate (rows * cols).toNat Double.zero
          row := (List.range rows.toNat).map (fun (i : Nat) => (i : Int) * cols) }
  else .ub

/-- `free_matrix`, lines 17-20: `free(matrix[0]); free(matrix)`. Reading `matrix[0]`
needs a first row handle, and `free` needs the start of the `calloc` block. -/
def free_matrix (M : Matrix) : Res Unit :=
  match M.row with
  | 0 :: _ => .ok ()
  | _ => .ub

/-- Index in `data` of the element `matrix[i][j]`, when it lies inside both blocks. -/
def Matrix.index (M : Matrix) (i j : Nat) : Option Nat :=
  match M.row[i]? with
  | none => none
  | some off =>
    if 0 ≤ off + j ∧ off + j < M.data.length then some (off + j).toNat else none

/-- Reads `matrix[i][j]`. -/
def Matrix.load (M : Matrix) (i j : Nat) : Res Double :=
  match M.index i j with
  | none => .ub
  | some k => .ok (M.data.getD k Double.zero)

/-- Writes `matrix[i][j] = v`. -/
def Matrix.store (M : Matrix) (i j : Nat) (v : Double) : Res Matrix :=
  match M.index i j with
  | none => .ub
  | some k => .ok { M with data := M.data.set k v }

/-! ## The two multiplications -/

/-- The statement `(*C)[i][j] += A[i][k] * B[k][j]` of lines 58 and 72. -/
def accumulate (A B : Matrix) (i j k : Nat) (C : Matrix) : Res Matrix := do
  let a ← A.load i k
  let b ← B.load k j
  let c ← C.load i j
  C.store i j (c + a * b)

/-- The loop over `k` of lines 57-59 and 71-73, for one output cell. -/
def cell (A B : Matrix) (colsA : Int) (i j : Nat) (C : Matrix) : Res Matrix :=
  forLoop (fun k C => accumulate A B i j k C) colsA.toNat 0 C

/-- `multiply_serial`, lines 52-62; the result is the matrix stored in `*C`. -/
def multiply_serial (A B : Matrix) (rowsA colsA colsB : Int) : Res Matrix := do
  let C ← allocate_matrix rowsA colsB
  forLoop (fun i C => forLoop (fun j C => cell A B colsA i j C) colsB.toNat 0 C) rowsA.toNat 0 C

/-- The iteration space of the collapsed loop nest of lines 69-70, in source order. -/
def iterationSpace (rows cols : Nat) : List (Nat × Nat) :=
  List.product (List.range rows) (List.range cols)

/-- `multiply_parallel`, lines 65-76. `#pragma omp parallel for collapse(2)` hands
each iteration `(i, j)` to one thread, which runs the loop over `k` for that cell;
an iteration touches no cell of `*C` but its own. `sched` lists the iterations in the
order in which they are carried out. -/
def multiply_parallel (sched : List (Nat × Nat)) (A B : Matrix)
    (rowsA colsA colsB : Int) : Res Matrix := do
  let C ← allocate_matrix rowsA colsB
  forEach (fun ij C => cell A B colsA ij.1 ij.2 C) sched C

/-- The schedules of the work-sharing construct: every iteration of the collapsed
nest is carried out exactly once. -/
def Schedule (rows cols : Nat) (sched : List (Nat × Nat)) : Prop :=
  sched.Perm (iterationSpace rows cols)

/-- A matrix of `rows × cols` elements as `allocate_matrix` lays it out: the count
`rows * cols` fits in `int`, the block has `rows * cols` elements and row handle `i`
is at index `i * cols`. -/
def Matrix.HasShape (M : Matrix) (rows cols : Nat) : Prop :=
  rows * cols < 2 ^ 31 ∧ M.data.length = rows * cols ∧
    M.row = (List.range rows).map (fun (i : Nat) => (i : Int) * (cols : Int))

/-- The matrix of zeros of the given shape, as `allocate_matrix` returns it. -/
def Matrix.zeros (rows cols : Nat) : Matrix :=
  { data := List.replicate (rows * cols) Double.zero
    row := (List.range rows).map (fun (i : Nat) => (i : Int) * (cols : Int)) }

/-- Element `(i, j)` of a matrix with `cols` columns laid out in one block. -/
def Matrix.entry (M : Matrix) (cols i j : Nat) : Double :=
  M.data.getD (i * cols + j) Double.zero

/-- The products `a i k * b k j` added to `init` one after the other, in ascending `k`
over `0 ≤ k < n`. -/
def dotFrom (a b : Nat → Nat → Double) (init : Double) (n i j : Nat) : Double :=
  (List.range n).foldl (fun acc k => acc + a i k * b k j) init

/-- The inner product of row `i` of `a` and column `j` of `b`, accumulated from zero
in ascending `k` over `0 ≤ k < n`. -/
def dot (a b : Nat → Nat → Double) (n i j : Nat) : Double :=
  dotFrom a b Double.zero n i j

/-- Builds the matrix of a list of rows of equal length `cols`. -/
def Matrix.ofRows (cols : Nat) (rows : List (List Double)) : Matrix :=
  { data := rows.flatten
    row := (List.range rows.length).map (fun (i : Nat) => (i : Int) * (cols : Int)) }

/-- The `n × n` identity matrix: `1.0` on the diagonal, `0.0` elsewhere. -/
def Matrix.identity (n : Nat) : Matrix :=
  Matrix.ofRows n ((List.range n).map (fun i =>
    (List.range n).map (fun j => if i = j then Double.one else Double.zero)))

/-- The property of being the `n × n` identity matrix. -/
def Matrix.IsIdentity (I : Matrix) (n : Nat) : Prop :=
  I.HasShape n n ∧
    ∀ i, i < n → ∀ j, j < n → I.entry n i j = if i = j then Double.one else Double.zero

/-! ## Text input: `fscanf` -/

/-- Result of a conversion `%d` on the unread text: a value and the text left, a
matching failure or the end of input, or undefined behaviour. -/
inductive Conv (α : Type) where
  | ok (v : α) (rest : List Char)
  | fail
  | ub
  deriving DecidableEq, Repr

/-- The white-space characters of `isspace` in the C locale. -/
def isSpace (c : Char) : Bool :=
  c.toNat = 32 || (9 ≤ c.toNat && c.toNat ≤ 13)

/-- The decimal digits. -/
def isDigit (c : Char) : Bool := 48 ≤ c.toNat && c.toNat ≤ 57

/-- Value of a decimal digit. -/
def digitValue (c : Char) : Nat := c.toNat - 48

/-- Value of a hexadecimal digit, if it is one. -/
def hexValue (c : Char) : Option Nat :=
  if 48 ≤ c.toNat && c.toNat ≤ 57 then some (c.toNat - 48)
  else if 97 ≤ c.toNat && c.toNat ≤ 102 then some (c.toNat - 87)
  else if 65 ≤ c.toNat && c.toNat ≤ 70 then some (c.toNat - 55)
  else none

/-- Skips leading white space. -/
def skipSpace : List Char → List Char
  | [] => []
  | c :: cs => if isSpace c then skipSpace cs else c :: cs

/-- Reads an optional sign: whether it was a minus, and the text left. -/
def scanSign : List Char → Bool × List Char
  | [] => (false, [])
  | c :: cs => if c = '-' then (true, cs) else if c = '+' then (false, cs) else (false, c :: cs)

/-- Reads the longest run of decimal digits: the number read on top of `acc`, the
count of digits on top of `cnt`, and the text left. -/
def scanDigits : List Char → Nat → Nat → Nat × Nat × List Char
  | [], acc, cnt => (acc, cnt, [])
  | c :: cs, acc, cnt =>
    if isDigit c then scanDigits cs (10 * acc + digitValue c) (cnt + 1) else (acc, cnt, c :: cs)

/-- Reads the longest run of hexadecimal digits, like `scanDigits`. -/
def scanHexDigits : List Char → Nat → Nat → Nat × Nat × List Char
  | [], acc, cnt => (acc, cnt, [])
  | c :: cs, acc, cnt =>
    match hexValue c with
    | some d => scanHexDigits cs (16 * acc + d) (cnt + 1)
    | none => (acc, cnt, c :: cs)

/-- The conversion `%d`: white space, an optional sign, decimal digits. A number
that `int` cannot represent is undefined behaviour. -/
def scan_int (s : List Char) : Conv Int :=
  let (neg, s₁) := scanSign (skipSpace s)
  let (v, cnt, rest) := scanDigits s₁ 0 0
  if cnt = 0 then .fail
  else
    let x : Int := if neg then -(v : Int) else (v : Int)
    if inInt x then .ok x rest else .ub

/-- Matches a lower-case word at the head of the text, ignoring case. -/
def matchWord : List Char → List Char → Option (List Char)
  | [], s => some s
  | _ :: _, [] => none
  | w :: ws, c :: cs => if c.toLower = w then matchWord ws cs else none

/-- Reads an optional exponent part introduced by one of the two given letters: an
optional sign and decimal digits. `none` when the letter is there but no digit
follows it. -/
def scanExponent (lower upper : Char) (s : List Char) : Option (Int × List Char) :=
  match s with
  | c :: cs =>
    if c = lower ∨ c = upper then
      let (neg, s₁) := scanSign cs
      let (v, cnt, rest) := scanDigits s₁ 0 0
      if cnt = 0 then none else some (if neg then -(v : Int) else (v : Int), rest)
    else some (0, s)
  | [] => some (0, [])

/-- The `double` nearest to `±d * 10^x`. -/
def Double.ofDecimal (neg : Bool) (d : Nat) (x : Int) : Double :=
  if d = 0 then .fin neg 0 (-1074)
  else if 0 ≤ x then Double.round neg (d * 10 ^ x.toNat) 1 0
  else Double.round neg d (10 ^ (-x).toNat) 0

/-- The `double` nearest to `±h * 2^x`. -/
def Double.ofBinary (neg : Bool) (h : Nat) (x : Int) : Double :=
  if h = 0 then .fin neg 0 (-1074) else Double.round neg h 1 x

/-- Reads the characters allowed between the brackets of `nan(...)` up to the
closing bracket. -/
def scanNanPayload : List Char → Option (List Char)
  | [] => none
  | c :: cs =>
    if c = ')' then some cs
    else if c.isAlphanum ∨ c = '_' then scanNanPayload cs
    else none

/-- Reads a decimal number: digits with an optional point, then an optional
exponent. -/
def scanDecimal (neg : Bool) (s : List Char) : Option (Double × List Char) :=
  let (d₁, n₁, t₁) := scanDigits s 0 0
  let (d₂, n₂, t₂) :=
    match t₁ with
    | '.' :: t' => scanDigits t' d₁ n₁
    | _ => (d₁, n₁, t₁)
  if n₂ = 0 then none
  else
    match scanExponent 'e' 'E' t₂ with
    | none => none
    | some (x, rest) => some (Double.ofDecimal neg d₂ (x - ((n₂ - n₁ : Nat) : Int)), rest)

/-- Reads a hexadecimal number after its prefix `0x`: hexadecimal digits with an
optional point, then an optional binary exponent. -/
def scanHexadecimal (neg : Bool) (s : List Char) : Option (Double × List Char) :=
  let (h₁, n₁, t₁) := scanHexDigits s 0 0
  let (h₂, n₂, t₂) :=
    match t₁ with
    | '.' :: t' => scanHexDigits t' h₁ n₁
    | _ => (h₁, n₁, t₁)
  if n₂ = 0 then none
  else
    match scanExponent 'p' 'P' t₂ with
    | none => none
    | some (x, rest) => some (Double.ofBinary neg h₂ (x - 4 * ((n₂ - n₁ : Nat) : Int)), rest)

/-- Reads `inf` or `infinity` after its first letter. -/
def scanInfinity (neg : Bool) (s : List Char) : Option (Double × List Char) :=
  match matchWord ['n', 'f'] s with
  | none => none
  | some rest =>
    match rest with
    | c :: cs =>
      if c.toLower = 'i' then
        match matchWord ['n', 'i', 't', 'y'] cs with
        | none => none
        | some rest' => some (.inf neg, rest')
      else some (.inf neg, rest)
    | [] => some (.inf neg, [])

/-- Reads `nan` or `nan(...)` after its first letter. -/
def scanNan (s : List Char) : Option (Double × List Char) :=
  match matchWord ['a', 'n'] s with
  | none => none
  | some rest =>
    match rest with
    | '(' :: cs =>
      match scanNanPayload cs with
      | none => none
      | some rest' => some (.nan, rest')
    | _ => some (.nan, rest)

/-- The conversion `%lf`: white space, then the longest text that starts a
floating-point number in the format of `strtod` (decimal with optional fraction and
exponent, hexadecimal with optional binary exponent, `inf`, `infinity`, `nan`,
`nan(...)`, with an optional sign); `none`, a matching failure or the end of input,
when that text is no complete number. The value is rounded correctly. -/
def scan_double (s : List Char) : Option (Double × List Char) :=
  let (neg, s₁) := scanSign (skipSpace s)
  match s₁ with
  | [] => none
  | c :: cs =>
    if c.toLower = 'i' then scanInfinity neg cs
    else if c.toLower = 'n' then scanNan cs
    else
      match s₁ with
      | '0' :: x :: t =>
        if x = 'x' ∨ x = 'X' then scanHexadecimal neg t else scanDecimal neg s₁
      | _ => scanDecimal neg s₁

/-- Successive `%lf` conversions, `n` of them: the values and the text left, or
`none` when one of them fails. -/
def scan_doubles : Nat → List Char → Option (List Double × List Char)
  | 0, s => some ([], s)
  | n + 1, s =>
    match scan_double s with
    | some (v, rest) =>
      match scan_doubles n rest with
      | some (vs, r) => some (v :: vs, r)
      | none => none
    | none => none

/-- The white-space-delimited tokens of a text; `cur` holds the token being read,
last character first. -/
def splitTokensAux : List Char → List Char → List (List Char)
  | [], cur => if cur = [] then [] else [cur.reverse]
  | c :: cs, cur =>
    if isSpace c then
      if cur = [] then splitTokensAux cs [] else cur.reverse :: splitTokensAux cs []
    else splitTokensAux cs (c :: cur)

/-- The white-space-delimited tokens of a text. -/
def splitTokens (s : List Char) : List (List Char) := splitTokensAux s []

/-- Whether a token is, as a whole, a floating-point number for `%lf`. -/
def isNumberToken (tok : List Char) : Bool :=
  match scan_double tok with
  | some (_, []) => true
  | _ => false

/-! ## Text output: `fprintf` -/

/-- The character of a decimal digit. -/
def digitChar (d : Nat) : Char := Char.ofNat (48 + d)

/-- Decimal digits of a number, most significant first, in front of `acc`; the
first argument bounds the depth. -/
def natDigitsAux : Nat → Nat → List Char → List Char
  | 0, _, acc => acc
  | f + 1, n, acc =>
    if n < 10 then digitChar n :: acc
    else natDigitsAux f (n / 10) (digitChar (n % 10) :: acc)

/-- Decimal digits of a number, most significant first. -/
def natDigits (n : Nat) : List Char := natDigitsAux (n + 1) n []

/-- The magnitude `m * 2^e` in hundredths, rounded to nearest, ties to even. -/
def centi (m : Nat) (e : Int) : Nat :=
  if 0 ≤ e then m * 2 ^ e.toNat * 100 else roundHalfEven (m * 100) (2 ^ (-e).toNat)

/-- The conversion `%.2lf`: sign, integer part, point and two decimals of the value
rounded to hundredths; `inf` and `nan` for the special values (the sign that a C
library may print in front of `nan` is not tracked). -/
def format_2f : Double → List Char
  | .nan => ['n', 'a', 'n']
  | .inf neg => (if neg then ['-'] else []) ++ ['i', 'n', 'f']
  | .fin neg m e =>
    (if neg then ['-'] else []) ++ natDigits (centi m e / 100) ++
      ['.', digitChar (centi m e % 100 / 10), digitChar (centi m e % 10)]

/-- The number that a list of decimal digits, most significant first, continues
from `acc`. -/
def digitsValue (acc : Nat) (ds : List Char) : Nat :=
  ds.foldl (fun a c => 10 * a + digitValue c) acc

/-- Whether the integer part of the value, as `%.2lf` prints it, is below `2^31`;
true of the special values, which print no digit. -/
def Double.integerPartFits : Double → Prop
  | .fin _ m e => centi m e / 100 < 2 ^ 31
  | _ => True

/-! ## Files and the driver -/

/-- The files the process can see: `content path` is the text of the file when
`fopen(path, "r")` succeeds, `writable path` tells whether `fopen(path, "w")`
succeeds. -/
structure FS where
  content : String → Option (List Char)
  writable : String → Bool

/-- The file system after `path` was opened for writing, filled with `text` and
closed. -/
def FS.write (fs : FS) (path : String) (text : List Char) : FS :=
  { fs with content := fun q => if q = path then some text else fs.content q }

/-- One `fscanf(file, "%lf", &((*matrix)[i][j]))` with its error exit, lines 40-44;
the state is the unread text and the matrix. -/
def readElement (i j : Nat) (st : List Char × Matrix) : Res (List Char × Matrix) :=
  match scan_double st.1 with
  | some (v, rest) => (st.2.store i j v).bind (fun M => .ok (rest, M))
  | none => .exit EXIT_FAILURE

/-- `read_matrix`, lines 23-49; the result is `(*rows, *cols, *matrix)`. -/
def read_matrix (fs : FS) (filename : String) : Res (Int × Int × Matrix) :=
  match fs.content filename with
  | none => .exit EXIT_FAILURE
  | some text =>
    match scan_int text with
    | .fail => .exit EXIT_FAILURE
    | .ub => .ub
    | .ok rows s₁ =>
      match scan_int s₁ with
      | .fail => .exit EXIT_FAILURE
      | .ub => .ub
      | .ok cols s₂ =>
        (allocate_matrix rows cols).bind fun M =>
          (forLoop (fun i st => forLoop (fun j st => readElement i j st) cols.toNat 0 st)
            rows.toNat 0 (s₂, M)).bind fun st => .ok (rows, cols, st.2)

/-- The text that `write_matrix` produces for a matrix with the given elements: row
after row, each element in `%.2lf` followed by a space, each row followed by a
newline. -/
def render (a : Nat → Nat → Double) (rows cols : Nat) : List Char :=
  (List.range rows).flatMap fun i =>
    ((List.range cols).flatMap fun j => format_2f (a i j) ++ [' ']) ++ ['\n']

/-- `write_matrix`, lines 79-94; the result is the file system after `fclose`. -/
def write_matrix (fs : FS) (filename : String) (M : Matrix) (rows cols : Int) : Res FS :=
  if fs.writable filename then
    (forLoop (fun i out =>
        (forLoop (fun j out => (M.load i j).bind fun v => .ok (out ++ format_2f v ++ [' ']))
          cols.toNat 0 out).bind fun out => .ok (out ++ ['\n']))
      rows.toNat 0 []).bind fun out => .ok (fs.write filename out)
  else .exit EXIT_FAILURE

/-- How the process ends: with an exit status and the file system it leaves, or in
undefined behaviour. -/
inductive Outcome where
  | terminated (status : Int) (fs : FS)
  | undefined

/-- The body of `main`, lines 96-143, for the schedule `sched` that the OpenMP
runtime picks: the value returned and the file system left. With `argc` other than 4
the usage line prints `argv[0]`, a null pointer when `argc` is 0. -/
def mainBody (sched : List (Nat × Nat)) (fs : FS) (argv : List String) : Res (Int × FS) :=
  match argv with
  | [_, pathA, pathB, pathOut] =>
    (read_matrix fs pathA).bind fun (rowsA, colsA, A) =>
    (read_matrix fs pathB).bind fun (rowsB, colsB, B) =>
    if colsA ≠ rowsB then
      (free_matrix A).bind fun _ =>
      (free_matrix B).bind fun _ => .ok (EXIT_FAILURE, fs)
    else
      (multiply_serial A B rowsA colsA colsB).bind fun C_serial =>
      (multiply_parallel sched A B rowsA colsA colsB).bind fun C_parallel =>
      (write_matrix fs pathOut C_parallel rowsA colsB).bind fun fs' =>
      (free_matrix A).bind fun _ =>
      (free_matrix B).bind fun _ =>
      (free_matrix C_serial).bind fun _ =>
      (free_matrix C_parallel).bind fun _ => .ok (EXIT_SUCCESS, fs')
  | [] => .ub
  | _ => .ok (EXIT_FAILURE, fs)

/-- `main`. Every `exit` of the program comes before the first write, so a process
ended by `exit` leaves the file system as it found it. -/
def main (sched : List (Nat × Nat)) (fs : FS) (argv : List String) : Outcome :=
  match mainBody sched fs argv with
  | .ok (status, fs') => .terminated status fs'
  | .exit status => .terminated status fs
  | .ub => .undefined

instance (x : Double) : Decidable x.Canonical := by
  cases x <;> unfold Double.Canonical <;> exact inferInstance

instance (x : Double) : Decidable x.Finite := by
  cases x <;> unfold Double.Finite <;> exact inferInstance

instance (x : Double) : Decidable x.IsZero := by
  unfold Double.IsZero; exact inferInstance

instance (x : Double) : Decidable x.integerPartFits := by
  cases x <;> unfold Double.integerPartFits <;> exact inferInstance

instance (M : Matrix) (rows cols : Nat) : Decidable (M.HasShape rows cols) := by
  unfold Matrix.HasShape; exact inferInstance

instance (I : Matrix) (n : Nat) : Decidable (I.IsIdentity n) := by
  unfold Matrix.IsIdentity; exact inferInstance

instance (rows cols : Nat) (sched : List (Nat × Nat)) : Decidable (Schedule rows cols sched) := by
  unfold Schedule; exact inferInstance

/-- The exit status of a process that ended. -/
def Outcome.status : Outcome → Option Int
  | .terminated status _ => some status
  | .undefined => none

/-- The text of a file after the process ended. -/
def Outcome.content (o : Outcome) (path : String) : Option (List Char) :=
  match o with
  | .terminated _ fs => fs.content path
  | .undefined => none

/-! ## Sample data -/

/-- The matrix `[[1, 2], [3, 4]]`. -/
def sampleA : Matrix :=
  Matrix.ofRows 2 [[Double.ofNat 1, Double.ofNat 2], [Double.ofNat 3, Double.ofNat 4]]

/-- The matrix `[[5, 6], [7, 8]]`. -/
def sampleB : Matrix :=
  Matrix.ofRows 2 [[Double.ofNat 5, Double.ofNat 6], [Double.ofNat 7, Double.ofNat 8]]

/-- The matrix `[[7], [8], [9]]`. -/
def sampleColumn : Matrix :=
  Matrix.ofRows 1 [[Double.ofNat 7], [Double.ofNat 8], [Double.ofNat 9]]

/-- The `1 × 3` matrix of ones. -/
def onesRow : Matrix := Matrix.ofRows 3 [[Double.one, Double.one, Double.one]]

/-- The `3 × 1` matrix of ones. -/
def onesColumn : Matrix := Matrix.ofRows 1 [[Double.one], [Double.one], [Double.one]]

/-- The `2 × 2` matrix of zeros, one of them negative. -/
def zeros22 : Matrix :=
  Matrix.ofRows 2 [[Double.zero, Double.negZero], [Double.zero, Double.zero]]

/-- The matrix `[[inf, 0]]`. -/
def infRow : Matrix := Matrix.ofRows 2 [[Double.inf false, Double.zero]]

/-- The matrix `[[inf]]`. -/
def infCell : Matrix := Matrix.ofRows 1 [[Double.inf false]]

/-- The matrix `[[0]]`. -/
def zeroCell : Matrix := Matrix.ofRows 1 [[Double.zero]]

/-- A column of `65536` zeros. -/
def longColumn : Matrix := Matrix.zeros 65536 1

/-- A row of `65536` zeros. -/
def longRow : Matrix := Matrix.zeros 1 65536

/-- A schedule of the four iterations of a `2 × 2` result, out of source order. -/
def sampleSchedule : List (Nat × Nat) := [(1, 1), (0, 0), (1, 0), (0, 1)]

/-- A file system with a few input files; only `out.txt` can be opened for writing. -/
def sampleFS : FS :=
  { content := fun path =>
      if path = "a.txt" then some "2 2\n1 2\n3 4\n".toList
      else if path = "b.txt" then some "2 2\n5 6\n7 8\n".toList
      else if path = "column.txt" then some "3 1\n7\n8\n9\n".toList
      else if path = "short.txt" then some "2 2\n1 2\n3\n".toList
      else if path = "empty.txt" then some "0 3\n".toList
      else if path = "negative.txt" then some "-1 2\n".toList
      else if path = "huge.txt" then some "65536 65536\n1 2 3\n".toList
      else if path = "glued.txt" then some "2 2\n1.5.5 2.5.5\n".toList
      else none
    writable := fun path => path = "out.txt" }

end MatrixMult

namespace MatrixMult

/-! ## Outcomes and loops -/

@[simp] theorem Res.ok_bind {α β : Type} (a : α) (f : α → Res β) : (Res.ok a).bind f = f a := rfl

@[simp] theorem Res.exit_bind {α β : Type} (c : Int) (f : α → Res β) :
    (Res.exit c : Res α).bind f = .exit c := rfl

@[simp] theorem Res.ub_bind {α β : Type} (f : α → Res β) :
    (Res.ub : Res α).bind f = .ub := rfl

@[simp] theorem Res.bind_eq {α β : Type} (r : Res α) (f : α → Res β) : (r >>= f) = r.bind f := rfl

@[simp] theorem Res.pure_eq {α : Type} (a : α) : (pure a : Res α) = .ok a := rfl

theorem Res.bind_assoc {α β γ : Type} (r : Res α) (f : α → Res β) (g : β → Res γ) :
    (r.bind f).bind g = r.bind (fun a => (f a).bind g) := by
  cases r <;> rfl

theorem forEach_append {α σ : Type} (body : α → σ → Res σ) (l₁ l₂ : List α) (s : σ) :
    forEach body (l₁ ++ l₂) s = (forEach body l₁ s).bind (forEach body l₂) := by
  induction l₁ generalizing s with
  | nil => rfl
  | cons a l ih =>
    simp only [List.cons_append, forEach, Res.bind_assoc]
    congr 1
    funext s'
    exact ih s'

theorem forLoop_eq_forEach {σ : Type} (body : Nat → σ → Res σ) (n i : Nat) (s : σ) :
    forLoop body n i s = forEach body (List.range' i n) s := by
  induction n generalizing i s with
  | zero => rfl
  | succ n ih =>
    simp only [forLoop, List.range'_succ, forEach]
    congr 1
    funext s'
    exact ih (i + 1) s'

theorem forLoop_zero_eq_forEach {σ : Type} (body : Nat → σ → Res σ) (n : Nat) (s : σ) :
    forLoop body n 0 s = forEach body (List.range n) s := by
  rw [forLoop_eq_forEach, List.range_eq_range']

theorem forEach_map {α β σ : Type} (f : α → β) (body : β → σ → Res σ) (l : List α) (s : σ) :
    forEach body (l.map f) s = forEach (fun a => body (f a)) l s := by
  induction l generalizing s with
  | nil => rfl
  | cons a l ih =>
    simp only [List.map_cons, forEach]
    congr 1
    funext s'
    exact ih s'

theorem forEach_flatMap {α β σ : Type} (f : α → List β) (body : β → σ → Res σ)
    (l : List α) (s : σ) :
    forEach body (l.flatMap f) s = forEach (fun a => forEach body (f a)) l s := by
  induction l generalizing s with
  | nil => rfl
  | cons a l ih =>
    simp only [List.flatMap_cons, forEach_append, forEach]
    congr 1
    funext s'
    exact ih s'

/-- The loop nest over `i` and `j` visits the iteration space in source order. -/
theorem loopNest_eq_forEach {σ : Type} (body : Nat → Nat → σ → Res σ) (rows cols : Nat) (s : σ) :
    forLoop (fun i s => forLoop (fun j s => body i j s) cols 0 s) rows 0 s
      = forEach (fun ij s => body ij.1 ij.2 s) (iterationSpace rows cols) s := by
  rw [forLoop_zero_eq_forEach]
  unfold iterationSpace List.product
  rw [forEach_flatMap]
  congr 1
  funext i s'
  rw [forLoop_zero_eq_forEach, forEach_map]

theorem mem_iterationSpace {rows cols : Nat} {ij : Nat × Nat} :
    ij ∈ iterationSpace rows cols ↔ ij.1 < rows ∧ ij.2 < cols := by
  obtain ⟨i, j⟩ := ij
  simp [iterationSpace, List.mem_product]

theorem nodup_iterationSpace (rows cols : Nat) : (iterationSpace rows cols).Nodup :=
  List.Nodup.product (List.nodup_range rows) (List.nodup_range cols)

/-! ## The storage layout -/

theorem flat_index_lt {rows cols i j : Nat} (hi : i < rows) (hj : j < cols) :
    i * cols + j < rows * cols := by
  have h : (i + 1) * cols ≤ rows * cols := Nat.mul_le_mul_right cols hi
  rw [Nat.add_mul, Nat.one_mul] at h
  omega

theorem flat_index_inj {cols i j i' j' : Nat} (hj : j < cols) (hj' : j' < cols)
    (h : i * cols + j = i' * cols + j') : i = i' ∧ j = j' := by
  have hc : 0 < cols := by omega
  have h1 : (i * cols + j) / cols = i := by
    rw [Nat.mul_comm, Nat.mul_add_div hc, Nat.div_eq_of_lt hj, Nat.add_zero]
  have h2 : (i' * cols + j') / cols = i' := by
    rw [Nat.mul_comm, Nat.mul_add_div hc, Nat.div_eq_of_lt hj', Nat.add_zero]
  have hii : i = i' := by rw [← h1, ← h2, h]
  subst hii
  exact ⟨rfl, by omega⟩

theorem Matrix.HasShape.index_eq {M : Matrix} {rows cols i j : Nat}
    (h : M.HasShape rows cols) (hi : i < rows) (hj : j < cols) :
    M.index i j = some (i * cols + j) := by
  obtain ⟨_, hlen, hrow⟩ := h
  have hlt := flat_index_lt hi hj
  have hr : M.row[i]? = some ((i : Int) * (cols : Int)) := by
    rw [hrow, List.getElem?_map, List.getElem?_range hi]
    rfl
  unfold Matrix.index
  rw [hr]
  have hcast : ((i : Int) * (cols : Int) + (j : Int)) = ((i * cols + j : Nat) : Int) := by
    push_cast
    rfl
  have h0 : (0 : Int) ≤ ((i * cols + j : Nat) : Int) := Int.natCast_nonneg _
  have h1 : ((i * cols + j : Nat) : Int) < ((rows * cols : Nat) : Int) := by exact_mod_cast hlt
  simp only []
  rw [hcast, hlen, if_pos ⟨h0, h1⟩, Int.toNat_natCast]

theorem Matrix.HasShape.load_eq {M : Matrix} {rows cols i j : Nat}
    (h : M.HasShape rows cols) (hi : i < rows) (hj : j < cols) :
    M.load i j = .ok (M.entry cols i j) := by
  unfold Matrix.load
  rw [h.index_eq hi hj]
  rfl

theorem Matrix.HasShape.store_eq {M : Matrix} {rows cols i j : Nat}
    (h : M.HasShape rows cols) (hi : i < rows) (hj : j < cols) (v : Double) :
    M.store i j v = .ok { M with data := M.data.set (i * cols + j) v } := by
  unfold Matrix.store
  rw [h.index_eq hi hj]

theorem Matrix.HasShape.set {M : Matrix} {rows cols : Nat} (h : M.HasShape rows cols)
    (k : Nat) (v : Double) : ({ M with data := M.data.set k v } : Matrix).HasShape rows cols := by
  obtain ⟨hfit, hlen, hrow⟩ := h
  exact ⟨hfit, by simp [hlen], hrow⟩

theorem Matrix.entry_set {M : Matrix} {rows cols i j i' j' : Nat} (h : M.HasShape rows cols)
    (hi : i < rows) (hj : j < cols) (hj' : j' < cols) (v : Double) :
    ({ M with data := M.data.set (i * cols + j) v } : Matrix).entry cols i' j'
      = if i = i' ∧ j = j' then v else M.entry cols i' j' := by
  have hlt : i * cols + j < M.data.length := by rw [h.2.1]; exact flat_index_lt hi hj
  unfold Matrix.entry
  simp only [List.getD_eq_getElem?_getD, List.getElem?_set]
  by_cases hc : i = i' ∧ j = j'
  · obtain ⟨rfl, rfl⟩ := hc
    simp [hlt]
  · have hne : i * cols + j ≠ i' * cols + j' := fun he => hc (flat_index_inj hj hj' he)
    simp [hne, hc]

/-- Two matrices of one shape with the same elements are the same. -/
theorem Matrix.HasShape.ext {M N : Matrix} {rows cols : Nat}
    (hM : M.HasShape rows cols) (hN : N.HasShape rows cols)
    (h : ∀ i j, i < rows → j < cols → M.entry cols i j = N.entry cols i j) : M = N := by
  obtain ⟨dM, rM⟩ := M
  obtain ⟨dN, rN⟩ := N
  obtain ⟨_, hlM, hrM⟩ := hM
  obtain ⟨_, hlN, hrN⟩ := hN
  simp only at hlM hrM hlN hrN
  have hd : dM = dN := by
    apply List.ext_getElem (by rw [hlM, hlN])
    intro k h1 h2
    have hk : k < rows * cols := by rw [← hlM]; exact h1
    have hc : 0 < cols := by
      rcases Nat.eq_zero_or_pos cols with h0 | h0
      · rw [h0] at hk; simp at hk
      · exact h0
    have hi : k / cols < rows := by
      rw [Nat.div_lt_iff_lt_mul hc]; exact hk
    have hj : k % cols < cols := Nat.mod_lt _ hc
    have hkk : k / cols * cols + k % cols = k := by
      rw [Nat.mul_comm]; exact Nat.div_add_mod k cols
    have := h (k / cols) (k % cols) hi hj
    simp only [Matrix.entry, hkk, List.getD_eq_getElem _ _ h1, List.getD_eq_getElem _ _ h2] at this
    exact this
  rw [hd, hrM, hrN]

/-! ## One output cell, and a sequence of cells -/

theorem forLoop_succ_last {σ : Type} (body : Nat → σ → Res σ) (n i : Nat) (s : σ) :
    forLoop body (n + 1) i s = (forLoop body n i s).bind (body (i + n)) := by
  induction n generalizing i s with
  | zero =>
    simp only [forLoop, Nat.add_zero, Res.ok_bind]
    cases body i s <;> rfl
  | succ n ih =>
    rw [forLoop, forLoop, Res.bind_assoc]
    congr 1
    funext s'
    rw [ih (i + 1) s']
    have : i + 1 + n = i + (n + 1) := by omega
    rw [this]

theorem set_getD_self (l : List Double) (k : Nat) (d : Double) (hk : k < l.length) :
    l.set k (l.getD k d) = l := by
  apply List.ext_getElem (by simp)
  intro t h1 h2
  rw [List.getElem_set]
  split
  · next h => subst h; exact List.getD_eq_getElem _ _ hk
  · rfl

theorem dotFrom_succ (a b : Nat → Nat → Double) (init : Double) (n i j : Nat) :
    dotFrom a b init (n + 1) i j = dotFrom a b init n i j + a i n * b n j := by
  simp [dotFrom, List.range_succ, List.foldl_append]

theorem accumulate_eq {A B C : Matrix} {m n p i j k : Nat}
    (hA : A.HasShape m n) (hB : B.HasShape n p) (hC : C.HasShape m p)
    (hi : i < m) (hj : j < p) (hk : k < n) :
    accumulate A B i j k C
      = .ok { C with
              data := (C.data.set (i * p + j) (C.entry p i j + A.entry n i k * B.entry p k j)) } := by
  unfold accumulate
  simp only [Res.bind_eq, hA.load_eq hi hk, hB.load_eq hk hj, hC.load_eq hi hj, Res.ok_bind,
    hC.store_eq hi hj]

theorem cell_steps {A B C : Matrix} {m n p i j : Nat}
    (hA : A.HasShape m n) (hB : B.HasShape n p) (hC : C.HasShape m p)
    (hi : i < m) (hj : j < p) (t : Nat) (ht : t ≤ n) :
    forLoop (fun k C => accumulate A B i j k C) t 0 C
      = .ok { C with
              data := (C.data.set (i * p + j) (dotFrom (A.entry n) (B.entry p) (C.entry p i j) t i j)) } := by
  induction t with
  | zero =>
    have hlt : i * p + j < C.data.length := by rw [hC.2.1]; exact flat_index_lt hi hj
    simp only [forLoop, dotFrom, List.range_zero, List.foldl_nil]
    rw [Matrix.entry, set_getD_self _ _ _ hlt]
  | succ t ih =>
    rw [forLoop_succ_last, ih (by omega), Res.ok_bind, Nat.zero_add,
      accumulate_eq hA hB (hC.set _ _) hi hj (by omega)]
    simp only [List.set_set, Matrix.entry_set hC hi hj hj, and_self, if_true, dotFrom_succ]

theorem cell_eq {A B C : Matrix} {m n p i j : Nat}
    (hA : A.HasShape m n) (hB : B.HasShape n p) (hC : C.HasShape m p)
    (hi : i < m) (hj : j < p) :
    cell A B (n : Int) i j C
      = .ok { C with
              data := (C.data.set (i * p + j) (dotFrom (A.entry n) (B.entry p) (C.entry p i j) n i j)) } := by
  unfold cell
  rw [Int.toNat_natCast]
  exact cell_steps hA hB hC hi hj n (Nat.le_refl n)

/-- Running the cells of a duplicate-free list, in any order, accumulates each listed
cell from its initial content and leaves the other cells alone. -/
theorem forEach_cells {A B : Matrix} {m n p : Nat}
    (hA : A.HasShape m n) (hB : B.HasShape n p) (L : List (Nat × Nat)) :
    ∀ (C : Matrix), C.HasShape m p → L.Nodup → (∀ ij ∈ L, ij.1 < m ∧ ij.2 < p) →
      ∃ C', forEach (fun ij C => cell A B (n : Int) ij.1 ij.2 C) L C = .ok C' ∧
        C'.HasShape m p ∧
        ∀ i j, i < m → j < p → C'.entry p i j
          = if (i, j) ∈ L then dotFrom (A.entry n) (B.entry p) (C.entry p i j) n i j
            else C.entry p i j := by
  induction L with
  | nil =>
    intro C hC _ _
    exact ⟨C, rfl, hC, fun i j _ _ => by simp⟩
  | cons c L ih =>
    intro C hC hnd hin
    obtain ⟨ci, cj⟩ := c
    have hc := hin (ci, cj) (List.mem_cons_self _ _)
    simp only at hc
    rw [List.nodup_cons] at hnd
    have hC1 := hC.set (ci * p + cj) (dotFrom (A.entry n) (B.entry p) (C.entry p ci cj) n ci cj)
    obtain ⟨C', hrun, hC', hent⟩ := ih _ hC1 hnd.2 (fun ij h => hin ij (List.mem_cons_of_mem _ h))
    refine ⟨C', ?_, hC', ?_⟩
    · simp only [forEach, cell_eq hA hB hC hc.1 hc.2, Res.ok_bind]
      exact hrun
    · intro i j hi hj
      rw [hent i j hi hj, Matrix.entry_set hC hc.1 hc.2 hj]
      by_cases he : ci = i ∧ cj = j
      · obtain ⟨rfl, rfl⟩ := he
        simp [hnd.1]
      · have hne : (i, j) ≠ (ci, cj) := by
          intro h
          injection h with h1 h2
          exact he ⟨h1.symm, h2.symm⟩
        simp only [if_neg he, List.mem_cons, hne, false_or]

/-! ## `allocate_matrix` -/

theorem allocate_matrix_eq {rows cols : Nat} (h : rows * cols < 2 ^ 31) :
    allocate_matrix (rows : Int) (cols : Int) = .ok (Matrix.zeros rows cols) := by
  unfold allocate_matrix Matrix.zeros
  have hc : ((rows : Int) * (cols : Int)) = ((rows * cols : Nat) : Int) := by push_cast; rfl
  have hin : inInt ((rows : Int) * (cols : Int)) := by
    rw [hc]
    constructor
    · have : (0 : Int) ≤ ((rows * cols : Nat) : Int) := Int.natCast_nonneg _
      omega
    · exact_mod_cast h
  rw [if_pos hin, hc, Int.toNat_natCast, Int.toNat_natCast]

theorem allocate_matrix_shape {rows cols : Nat} (h : rows * cols < 2 ^ 31) :
    (Matrix.zeros rows cols).HasShape rows cols :=
  ⟨h, by simp [Matrix.zeros], rfl⟩

theorem allocate_matrix_entry {rows cols i j : Nat} :
    (Matrix.zeros rows cols).entry cols i j = Double.zero := by
  simp only [Matrix.zeros, Matrix.entry, List.getD_eq_getElem?_getD]
  cases h : (List.replicate (rows * cols) Double.zero)[i * cols + j]? with
  | none => rfl
  | some v =>
    rw [List.getElem?_eq_some_iff] at h
    obtain ⟨_, h⟩ := h
    simp only [List.getElem_replicate] at h
    simp [h]

/-! ## The product -/

/-- Carrying out every iteration of the collapsed nest once, in any order, on the
freshly allocated result fills each cell with its inner product. -/
theorem run_schedule {A B : Matrix} {m n p : Nat}
    (hA : A.HasShape m n) (hB : B.HasShape n p) (hfit : m * p < 2 ^ 31)
    {sched : List (Nat × Nat)} (hs : Schedule m p sched) :
    ∃ C, (allocate_matrix (m : Int) (p : Int)).bind
          (forEach (fun ij C => cell A B (n : Int) ij.1 ij.2 C) sched) = .ok C ∧
      C.HasShape m p ∧
      ∀ i j, i < m → j < p → C.entry p i j = dot (A.entry n) (B.entry p) n i j := by
  have hnd : sched.Nodup := hs.nodup_iff.mpr (nodup_iterationSpace m p)
  have hin : ∀ ij ∈ sched, ij.1 < m ∧ ij.2 < p := fun ij h =>
    mem_iterationSpace.mp (hs.mem_iff.mp h)
  obtain ⟨C, hrun, hC, hent⟩ :=
    forEach_cells hA hB sched _ (allocate_matrix_shape hfit) hnd hin
  refine ⟨C, ?_, hC, ?_⟩
  · rw [allocate_matrix_eq hfit, Res.ok_bind]
    exact hrun
  · intro i j hi hj
    have hmem : (i, j) ∈ sched := hs.mem_iff.mpr (mem_iterationSpace.mpr ⟨hi, hj⟩)
    rw [hent i j hi hj, if_pos hmem, allocate_matrix_entry]
    rfl

theorem multiply_serial_eq (A B : Matrix) (m n p : Nat) :
    multiply_serial A B (m : Int) (n : Int) (p : Int)
      = (allocate_matrix (m : Int) (p : Int)).bind
          (forEach (fun ij C => cell A B (n : Int) ij.1 ij.2 C) (iterationSpace m p)) := by
  unfold multiply_serial
  simp only [Res.bind_eq, Int.toNat_natCast]
  congr 1
  funext C
  exact loopNest_eq_forEach (fun i j C => cell A B (n : Int) i j C) m p C

theorem multiply_parallel_eq (sched : List (Nat × Nat)) (A B : Matrix) (m n p : Nat) :
    multiply_parallel sched A B (m : Int) (n : Int) (p : Int)
      = (allocate_matrix (m : Int) (p : Int)).bind
          (forEach (fun ij C => cell A B (n : Int) ij.1 ij.2 C) sched) := rfl

theorem shape_row_length {M : Matrix} {rows cols : Nat} (h : M.HasShape rows cols) :
    M.row.length = rows := by
  rw [h.2.2]
  simp

/-- Claim C10. For `rows ≥ 1` and `cols ≥ 1` whose product fits in `int`,
`allocate_matrix` returns a block of exactly `rows * cols` elements, all zero, with
row handle `i` at index `i * cols`; element `(i, j)` is at index `i * cols + j`, which
is below `rows * cols`, and different pairs `(i, j)` have different indices. -/
theorem allocate_matrix_storage (rows cols : Nat) (hr : 1 ≤ rows) (hc : 1 ≤ cols)
    (hfit : rows * cols < 2 ^ 31) :
    ∃ M, allocate_matrix (rows : Int) (cols : Int) = .ok M ∧
      M.data.length = rows * cols ∧
      (∀ x ∈ M.data, x = Double.zero) ∧
      M.row.length = rows ∧
      (∀ i : Nat, i < rows → M.row[i]? = some ((i : Int) * (cols : Int))) ∧
      (∀ i j, i < rows → j < cols →
        M.index i j = some (i * cols + j) ∧ i * cols + j < rows * cols) ∧
      (∀ i j i' j', i < rows → j < cols → i' < rows → j' < cols →
        M.index i j = M.index i' j' → i = i' ∧ j = j') := by
  have hS := allocate_matrix_shape hfit
  refine ⟨_, allocate_matrix_eq hfit, hS.2.1, ?_, shape_row_length hS, ?_, ?_, ?_⟩
  · intro x hx
    exact List.eq_of_mem_replicate hx
  · intro i hi
    rw [hS.2.2, List.getElem?_map, List.getElem?_range hi]
    rfl
  · intro i j hi hj
    exact ⟨hS.index_eq hi hj, flat_index_lt hi hj⟩
  · intro i j i' j' hi hj hi' hj' h
    rw [hS.index_eq hi hj, hS.index_eq hi' hj'] at h
    exact flat_index_inj hj hj' (Option.some.inj h)

/-- Witness of C10 on a `2 × 3` matrix. -/
theorem allocate_matrix_storage_witness :
    ∃ M, allocate_matrix ((2 : Nat) : Int) ((3 : Nat) : Int) = .ok M ∧
      M.data.length = 2 * 3 ∧
      (∀ x ∈ M.data, x = Double.zero) ∧
      M.row.length = 2 ∧
      (∀ i : Nat, i < 2 → M.row[i]? = some ((i : Int) * ((3 : Nat) : Int))) ∧
      (∀ i j, i < 2 → j < 3 →
        M.index i j = some (i * 3 + j) ∧ i * 3 + j < 2 * 3) ∧
      (∀ i j i' j', i < 2 → j < 3 → i' < 2 → j' < 3 →
        M.index i j = M.index i' j' → i = i' ∧ j = j') :=
  allocate_matrix_storage 2 3 (by decide) (by decide) (by decide)

/-- Claim C2, as amended. For `A` of shape `m × n` and `B` of shape `n × p` with
`m * p` representable in `int`, `multiply_serial` returns a matrix with exactly `m`
rows and `p` columns whose element `(i, j)` is the sum, accumulated from zero in
ascending `k` over `0 ≤ k < n`, of `A[i][k] * B[k][j]`. -/
theorem multiply_serial_spec (A B : Matrix) (m n p : Nat)
    (hA : A.HasShape m n) (hB : B.HasShape n p) (hfit : m * p < 2 ^ 31) :
    ∃ C, multiply_serial A B (m : Int) (n : Int) (p : Int) = .ok C ∧
      C.HasShape m p ∧ C.row.length = m ∧
      ∀ i j, i < m → j < p → C.load i j = .ok (dot (A.entry n) (B.entry p) n i j) := by
  obtain ⟨C, hrun, hC, hent⟩ := run_schedule hA hB hfit (List.Perm.refl (iterationSpace m p))
  refine ⟨C, ?_, hC, shape_row_length hC, ?_⟩
  · rw [multiply_serial_eq]
    exact hrun
  · intro i j hi hj
    rw [hC.load_eq hi hj, hent i j hi hj]

/-- Both multiplications return the same matrix, whose cells are the inner products. -/
theorem multiply_both {A B : Matrix} {m n p : Nat} {sched : List (Nat × Nat)}
    (hA : A.HasShape m n) (hB : B.HasShape n p) (hfit : m * p < 2 ^ 31)
    (hs : Schedule m p sched) :
    ∃ C, multiply_parallel sched A B (m : Int) (n : Int) (p : Int) = .ok C ∧
      multiply_serial A B (m : Int) (n : Int) (p : Int) = .ok C ∧
      C.HasShape m p ∧
      ∀ i j, i < m → j < p → C.load i j = .ok (dot (A.entry n) (B.entry p) n i j) := by
  obtain ⟨C, hrun, hC, hent⟩ := run_schedule hA hB hfit hs
  obtain ⟨C', hrun', hC', hent'⟩ :=
    run_schedule hA hB hfit (List.Perm.refl (iterationSpace m p))
  have hCC : C' = C :=
    hC'.ext hC (fun i j hi hj => by rw [hent i j hi hj, hent' i j hi hj])
  refine ⟨C, ?_, ?_, hC, ?_⟩
  · rw [multiply_parallel_eq]
    exact hrun
  · rw [multiply_serial_eq, ← hCC]
    exact hrun'
  · intro i j hi hj
    rw [hC.load_eq hi hj, hent i j hi hj]

/-- Claim C1, as amended. For `A` of shape `m × n` and `B` of shape `n × p` with
`m * p` representable in `int`, and for every order in which the iterations `(i, j)`
are carried out, each exactly once with its loop over `k` ascending,
`multiply_parallel` and `multiply_serial` return the same matrix, of shape `m × p`. -/
theorem multiply_parallel_eq_serial (A B : Matrix) (m n p : Nat) (sched : List (Nat × Nat))
    (hA : A.HasShape m n) (hB : B.HasShape n p) (hfit : m * p < 2 ^ 31)
    (hs : Schedule m p sched) :
    ∃ C, multiply_parallel sched A B (m : Int) (n : Int) (p : Int) = .ok C ∧
      multiply_serial A B (m : Int) (n : Int) (p : Int) = .ok C ∧
      C.HasShape m p :=
  let ⟨C, h1, h2, h3, _⟩ := multiply_both hA hB hfit hs
  ⟨C, h1, h2, h3⟩

/-! ## Arithmetic of `double` -/
theorem log2Fuel_eq_log (f n : Nat) (h : n ≤ f) : log2Fuel f n = Nat.log 2 n := by
  induction f generalizing n with
  | zero =>
    have : n = 0 := by omega
    subst this
    simp [log2Fuel]
  | succ f ih =>
    rw [log2Fuel]
    split
    · next h2 => exact (Nat.log_of_lt h2).symm
    · next h2 =>
      rw [ih (n / 2) (by omega)]
      exact (Nat.log_of_one_lt_of_le (by decide) (by omega)).symm

theorem ilog2_eq_log (n : Nat) : ilog2 n = Nat.log 2 n := log2Fuel_eq_log n n (Nat.le_refl n)

theorem log_mul_two_pow (m k : Nat) (hm : m ≠ 0) : Nat.log 2 (m * 2 ^ k) = Nat.log 2 m + k := by
  induction k with
  | zero => simp
  | succ k ih =>
    have : m * 2 ^ (k + 1) = m * 2 ^ k * 2 := by rw [Nat.pow_succ, Nat.mul_assoc]
    rw [this, Nat.log_mul_base (by decide) (Nat.mul_ne_zero hm (by positivity)), ih]
    omega

theorem roundHalfEven_mul (m d : Nat) (hd : 0 < d) : roundHalfEven (m * d) d = m := by
  unfold roundHalfEven
  simp only [Nat.mul_mod_left, Nat.mul_zero]
  rw [if_pos hd, Nat.mul_div_cancel _ hd]

/-- Rounding is the identity on numbers that binary64 represents. -/
theorem round_exact (s : Bool) (m k : Nat) (e : Int) (hm : 0 < m)
    (hcan : Double.Canonical (.fin s m e)) :
    Double.round s (m * 2 ^ k) 1 (e - (k : Int)) = .fin s m e := by
  obtain ⟨h53, he1, he2, hsub⟩ := hcan
  have hm0 : m ≠ 0 := by omega
  have hL1 : 2 ^ Nat.log 2 m ≤ m := Nat.pow_log_le_self 2 hm0
  have hL2 : m < 2 ^ (Nat.log 2 m + 1) := Nat.lt_pow_succ_log_self (by decide) m
  have hL53 : Nat.log 2 m < 53 := (Nat.pow_lt_pow_iff_right (by decide : 1 < 2)).mp (lt_of_le_of_lt hL1 h53)
  have hLe : ((Nat.log 2 m : Nat) : Int) + e - 52 ≤ e ∧
      (((Nat.log 2 m : Nat) : Int) + e - 52 < e → e = -1074) := by
    constructor
    · omega
    · intro hlt
      apply hsub
      have : Nat.log 2 m < 52 := by omega
      calc m < 2 ^ (Nat.log 2 m + 1) := hL2
        _ ≤ 2 ^ 52 := Nat.pow_le_pow_right (by decide) (by omega)
  have hlog : ilog2 (m * 2 ^ k) = Nat.log 2 m + k := by
    rw [ilog2_eq_log, log_mul_two_pow m k hm0]
  have hl1 : ilog2 1 = 0 := by decide
  have hpow : 1 * 2 ^ (Nat.log 2 m + k) ≤ m * 2 ^ k := by
    rw [Nat.one_mul, Nat.pow_add]
    exact Nat.mul_le_mul_right _ hL1
  have hfl : (if (0 ≤ ((Nat.log 2 m + k : Nat) : Int) - ((0 : Nat) : Int) ∧
        1 * 2 ^ (((Nat.log 2 m + k : Nat) : Int) - ((0 : Nat) : Int)).toNat ≤ m * 2 ^ k) ∨
        (((Nat.log 2 m + k : Nat) : Int) - ((0 : Nat) : Int) < 0 ∧
          1 ≤ m * 2 ^ k * 2 ^ (-(((Nat.log 2 m + k : Nat) : Int) - ((0 : Nat) : Int))).toNat)
      then ((Nat.log 2 m + k : Nat) : Int) - ((0 : Nat) : Int)
      else ((Nat.log 2 m + k : Nat) : Int) - ((0 : Nat) : Int) - 1)
      = ((Nat.log 2 m + k : Nat) : Int) := by
    rw [if_pos]
    · omega
    · left
      refine ⟨by omega, ?_⟩
      have : (((Nat.log 2 m + k : Nat) : Int) - ((0 : Nat) : Int)).toNat = Nat.log 2 m + k := by
        omega
      rw [this]
      exact hpow
  have hmax : max (((Nat.log 2 m + k : Nat) : Int) + (e - (k : Int)) - 52) (-1074) = e := by
    push_cast
    omega
  unfold Double.round
  simp only [hlog, hl1, hfl, hmax]
  have hsh : e - (k : Int) - e = -(k : Int) := by omega
  rw [hsh]
  have hnum : roundHalfEven (if (0 : Int) ≤ -(k : Int) then m * 2 ^ k * 2 ^ (-(k : Int)).toNat else m * 2 ^ k)
      (if (0 : Int) ≤ -(k : Int) then 1 else 1 * 2 ^ (- -(k : Int)).toNat) = m := by
    by_cases hk : k = 0
    · subst hk
      simp [roundHalfEven, Nat.mod_one]
    · have : ¬ (0 : Int) ≤ -(k : Int) := by omega
      rw [if_neg this, if_neg this]
      have : (- -(k : Int)).toNat = k := by simp
      rw [this, Nat.one_mul]
      exact roundHalfEven_mul m (2 ^ k) (by positivity)
  rw [hnum]
  have hne : m ≠ 2 ^ 53 := by omega
  rw [if_neg hne, if_neg hne, if_neg (by omega)]



theorem Double.add_def (x y : Double) : x + y = Double.add x y := rfl
theorem Double.mul_def (x y : Double) : x * y = Double.mul x y := rfl

theorem Double.finite_zero_cases {s : Bool} {e : Int} (h : Double.Finite (.fin s 0 e)) :
    e = -1074 := h.2.2.2 (by decide)

/-- A finite value times a zero is a zero. -/
theorem Double.mul_isZero {x z : Double} (hx : x.Finite) (hz : z.IsZero) : (x * z).IsZero := by
  cases x with
  | fin s m e =>
    rcases hz with rfl | rfl
    · cases s <;> simp [Double.mul_def, Double.mul, Double.zero, Double.negZero, Double.IsZero]
    · cases s <;> simp [Double.mul_def, Double.mul, Double.zero, Double.negZero, Double.IsZero]
  | inf s => exact hx.elim
  | nan => exact hx.elim

/-- A zero times a finite value is a zero. -/
theorem Double.isZero_mul {x z : Double} (hx : x.Finite) (hz : z.IsZero) : (z * x).IsZero := by
  cases x with
  | fin s m e =>
    rcases hz with rfl | rfl
    · cases s <;> simp [Double.mul_def, Double.mul, Double.zero, Double.negZero, Double.IsZero]
    · cases s <;> simp [Double.mul_def, Double.mul, Double.zero, Double.negZero, Double.IsZero]
  | inf s => exact hx.elim
  | nan => exact hx.elim

/-- Multiplying a finite value by `1.0` returns it. -/
theorem Double.mul_one {x : Double} (hx : x.Finite) : x * Double.one = x := by
  cases x with
  | fin s m e =>
    rcases Nat.eq_zero_or_pos m with rfl | hm
    · have he := Double.finite_zero_cases hx
      subst he
      cases s <;> rfl
    · have h := round_exact s m 52 e hm hx
      have hne : m * 2 ^ 52 ≠ 0 := Nat.mul_ne_zero (by omega) (by decide)
      have hexp : e + (-52 : Int) = e - ((52 : Nat) : Int) := by omega
      simp only [Double.mul_def, Double.mul, Double.one, if_neg hne, Bool.xor_false, hexp]
      exact h
  | inf s => exact hx.elim
  | nan => exact hx.elim

theorem Double.add_fin_zero (s u : Bool) (m : Nat) (e : Int) (hm : 0 < m)
    (hx : Double.Canonical (.fin s m e)) :
    Double.add (.fin s m e) (.fin u 0 (-1074)) = .fin s m e := by
  obtain ⟨k, hk⟩ : ∃ k : Nat, (k : Int) = e + 1074 := ⟨(e + 1074).toNat, by have := hx.2.1; omega⟩
  have hmin : min e (-1074) = -1074 := by have := hx.2.1; omega
  have hk1 : (e - -1074).toNat = k := by omega
  have hpos : 0 < m * 2 ^ k := Nat.mul_pos hm (by positivity)
  have h := round_exact s m k e hm hx
  have hexp : e - (k : Int) = -1074 := by omega
  rw [hexp] at h
  unfold Double.add
  simp only [hmin, hk1, sub_self, Int.toNat_zero, Nat.zero_mul, Nat.cast_zero, mul_zero, add_zero]
  cases s
  · have hc : ((1 : Int) * ((m * 2 ^ k : Nat) : Int)) = ((m * 2 ^ k : Nat) : Int) := by omega
    simp only [Bool.false_eq_true, if_false, hc]
    have h0 : ¬ (((m * 2 ^ k : Nat) : Int) = 0) := by omega
    have h1 : ¬ (((m * 2 ^ k : Nat) : Int) < 0) := by omega
    rw [if_neg h0, Int.natAbs_ofNat, decide_eq_false h1]
    exact h
  · have hc : ((-1 : Int) * ((m * 2 ^ k : Nat) : Int)) = -((m * 2 ^ k : Nat) : Int) := by omega
    simp only [if_true, hc]
    have h0 : ¬ (-((m * 2 ^ k : Nat) : Int) = 0) := by omega
    have h1 : (-((m * 2 ^ k : Nat) : Int) < 0) := by omega
    rw [if_neg h0, Int.natAbs_neg, Int.natAbs_ofNat, decide_eq_true h1]
    exact h

theorem Double.zero_add_fin (s : Bool) (m : Nat) (e : Int) (hm : 0 < m)
    (hx : Double.Canonical (.fin s m e)) :
    Double.add (.fin false 0 (-1074)) (.fin s m e) = .fin s m e := by
  obtain ⟨k, hk⟩ : ∃ k : Nat, (k : Int) = e + 1074 := ⟨(e + 1074).toNat, by have := hx.2.1; omega⟩
  have hmin : min (-1074) e = -1074 := by have := hx.2.1; omega
  have hk1 : (e - -1074).toNat = k := by omega
  have hpos : 0 < m * 2 ^ k := Nat.mul_pos hm (by positivity)
  have h := round_exact s m k e hm hx
  have hexp : e - (k : Int) = -1074 := by omega
  rw [hexp] at h
  unfold Double.add
  simp only [hmin, hk1, sub_self, Int.toNat_zero, Nat.zero_mul, Nat.cast_zero, mul_zero, zero_add]
  cases s
  · have hc : ((1 : Int) * ((m * 2 ^ k : Nat) : Int)) = ((m * 2 ^ k : Nat) : Int) := by omega
    simp only [Bool.false_eq_true, if_false, hc]
    have h0 : ¬ (((m * 2 ^ k : Nat) : Int) = 0) := by omega
    have h1 : ¬ (((m * 2 ^ k : Nat) : Int) < 0) := by omega
    rw [if_neg h0, Int.natAbs_ofNat, decide_eq_false h1]
    exact h
  · have hc : ((-1 : Int) * ((m * 2 ^ k : Nat) : Int)) = -((m * 2 ^ k : Nat) : Int) := by omega
    simp only [if_true, hc]
    have h0 : ¬ (-((m * 2 ^ k : Nat) : Int) = 0) := by omega
    have h1 : (-((m * 2 ^ k : Nat) : Int) < 0) := by omega
    rw [if_neg h0, Int.natAbs_neg, Int.natAbs_ofNat, decide_eq_true h1]
    exact h

/-- Adding a zero of either sign to a finite value other than negative zero returns it. -/
theorem Double.add_isZero {x z : Double} (hx : x.Finite) (hn : x ≠ Double.negZero)
    (hz : z.IsZero) : x + z = x := by
  have hz' : ∃ u, z = .fin u 0 (-1074) := by
    rcases hz with rfl | rfl
    · exact ⟨false, rfl⟩
    · exact ⟨true, rfl⟩
  obtain ⟨u, rfl⟩ := hz'
  cases x with
  | fin s m e =>
    rcases Nat.eq_zero_or_pos m with rfl | hm
    · have he := Double.finite_zero_cases hx
      subst he
      cases s
      · cases u <;> rfl
      · exact absurd rfl hn
    · exact Double.add_fin_zero s u m e hm hx
  | inf s => exact hx.elim
  | nan => exact hx.elim

/-- Adding a finite value to positive zero returns it, without the sign of a zero. -/
theorem Double.zero_add {x : Double} (hx : x.Finite) : Double.zero + x = x.dropZeroSign := by
  cases x with
  | fin s m e =>
    rcases Nat.eq_zero_or_pos m with rfl | hm
    · have he := Double.finite_zero_cases hx
      subst he
      cases s <;> rfl
    · have hne : Double.fin s m e ≠ Double.negZero := by
        intro h
        injection h with _ h2 _
        omega
      rw [Double.dropZeroSign, if_neg hne]
      exact Double.zero_add_fin s m e hm hx
  | inf s => exact hx.elim
  | nan => exact hx.elim

theorem Double.dropZeroSign_finite {x : Double} (hx : x.Finite) : x.dropZeroSign.Finite := by
  unfold Double.dropZeroSign
  split
  · exact ⟨by decide, by decide, by decide, fun _ => rfl⟩
  · exact hx

theorem Double.dropZeroSign_ne {x : Double} : x.dropZeroSign ≠ Double.negZero := by
  unfold Double.dropZeroSign
  split
  · decide
  · next h => exact h

theorem Double.ceq_dropZeroSign {x : Double} (hx : x.Finite) : Double.ceq x.dropZeroSign x = true := by
  unfold Double.dropZeroSign
  split
  · next h => subst h; decide
  · cases x with
    | fin s m e => simp [Double.ceq]
    | inf s => exact hx.elim
    | nan => exact hx.elim

/-! ## Identity and zero -/

theorem Matrix.HasShape.entry_mem {M : Matrix} {rows cols i j : Nat}
    (h : M.HasShape rows cols) (hi : i < rows) (hj : j < cols) :
    M.entry cols i j ∈ M.data := by
  have hlt : i * cols + j < M.data.length := by rw [h.2.1]; exact flat_index_lt hi hj
  unfold Matrix.entry
  rw [List.getD_eq_getElem _ _ hlt]
  exact List.getElem_mem _

theorem Matrix.HasShape.mem_data {M : Matrix} {rows cols : Nat} {x : Double}
    (h : M.HasShape rows cols) (hx : x ∈ M.data) :
    ∃ i j, i < rows ∧ j < cols ∧ M.entry cols i j = x := by
  obtain ⟨k, hk, rfl⟩ := List.getElem_of_mem hx
  have hk' : k < rows * cols := by rw [← h.2.1]; exact hk
  have hc : 0 < cols := by
    rcases Nat.eq_zero_or_pos cols with h0 | h0
    · rw [h0] at hk'; simp at hk'
    · exact h0
  refine ⟨k / cols, k % cols, (Nat.div_lt_iff_lt_mul hc).mpr hk', Nat.mod_lt _ hc, ?_⟩
  have hkk : k / cols * cols + k % cols = k := by
    rw [Nat.mul_comm]; exact Nat.div_add_mod k cols
  unfold Matrix.entry
  rw [hkk, List.getD_eq_getElem _ _ hk]

theorem Double.zero_finite : Double.zero.Finite := ⟨by decide, by decide, by decide, fun _ => rfl⟩

theorem dotFrom_right_zero (a b : Nat → Nat → Double) (n i j : Nat)
    (ha : ∀ k, k < n → (a i k).Finite) (hb : ∀ k, k < n → (b k j).IsZero) :
    dotFrom a b Double.zero n i j = Double.zero := by
  induction n with
  | zero => rfl
  | succ n ih =>
    rw [dotFrom_succ, ih (fun k hk => ha k (by omega)) (fun k hk => hb k (by omega))]
    exact Double.add_isZero Double.zero_finite (by decide)
      (Double.mul_isZero (ha n (by omega)) (hb n (by omega)))

theorem dotFrom_left_zero (a b : Nat → Nat → Double) (n i j : Nat)
    (ha : ∀ k, k < n → (a i k).IsZero) (hb : ∀ k, k < n → (b k j).Finite) :
    dotFrom a b Double.zero n i j = Double.zero := by
  induction n with
  | zero => rfl
  | succ n ih =>
    rw [dotFrom_succ, ih (fun k hk => ha k (by omega)) (fun k hk => hb k (by omega))]
    exact Double.add_isZero Double.zero_finite (by decide)
      (Double.isZero_mul (hb n (by omega)) (ha n (by omega)))

theorem dotFrom_identity (a b : Nat → Nat → Double) (n i j : Nat)
    (ha : ∀ k, k < n → (a i k).Finite)
    (hb : ∀ k, k < n → b k j = if k = j then Double.one else Double.zero) (t : Nat) (ht : t ≤ n) :
    dotFrom a b Double.zero t i j = if j < t then (a i j).dropZeroSign else Double.zero := by
  induction t with
  | zero => rfl
  | succ t ih =>
    rw [dotFrom_succ, ih (by omega), hb t (by omega)]
    by_cases htj : t = j
    · subst htj
      rw [if_neg (Nat.lt_irrefl _), if_pos rfl, if_pos (Nat.lt_succ_self _),
        Double.mul_one (ha t (by omega)), Double.zero_add (ha t (by omega))]
    · rw [if_neg htj]
      have hz : (a i t * Double.zero).IsZero := Double.mul_isZero (ha t (by omega)) (Or.inl rfl)
      by_cases hjt : j < t
      · rw [if_pos hjt, if_pos (by omega)]
        exact Double.add_isZero (Double.dropZeroSign_finite (ha j (by omega)))
          Double.dropZeroSign_ne hz
      · rw [if_neg hjt, if_neg (by omega)]
        exact Double.add_isZero Double.zero_finite (by decide) hz

/-- Claim C8, as amended. For `A` of shape `m × n` whose elements are all finite and
the `n × n` identity matrix `I`, `multiply_serial` returns a matrix of shape `m × n`
that compares equal to `A` element by element under `==`: each element is the
element of `A`, with negative zero returned as positive zero. -/
theorem multiply_serial_identity (A I : Matrix) (m n : Nat)
    (hA : A.HasShape m n) (hfin : ∀ x ∈ A.data, x.Finite) (hI : I.IsIdentity n) :
    ∃ C, multiply_serial A I (m : Int) (n : Int) (n : Int) = .ok C ∧
      C.HasShape m n ∧
      ∀ i j, i < m → j < n →
        C.entry n i j = (A.entry n i j).dropZeroSign ∧
        Double.ceq (C.entry n i j) (A.entry n i j) = true := by
  obtain ⟨C, hrun, hC, hent⟩ :=
    run_schedule hA hI.1 hA.1 (List.Perm.refl (iterationSpace m n))
  refine ⟨C, ?_, hC, ?_⟩
  · rw [multiply_serial_eq]
    exact hrun
  · intro i j hi hj
    have hd : C.entry n i j = (A.entry n i j).dropZeroSign := by
      rw [hent i j hi hj, dot,
        dotFrom_identity (A.entry n) (I.entry n) n i j
          (fun k hk => hfin _ (hA.entry_mem hi hk))
          (fun k hk => hI.2 k hk j hj) n (Nat.le_refl n), if_pos hj]
    exact ⟨hd, by rw [hd]; exact Double.ceq_dropZeroSign (hfin _ (hA.entry_mem hi hj))⟩

/-- Claim C9, as amended. For `A` of shape `m × n` with finite elements and an
all-zero `Z` of shape `n × p`, with `m * p` representable in `int`, `multiply_serial`
returns a matrix of shape `m × p` whose every element is positive zero; likewise
for an all-zero `Z'` of shape `m × n` and `B` of shape `n × p` with finite elements. -/
theorem multiply_serial_zero (A Z Z' B : Matrix) (m n p : Nat)
    (hA : A.HasShape m n) (hZ : Z.HasShape n p) (hZ' : Z'.HasShape m n) (hB : B.HasShape n p)
    (hfit : m * p < 2 ^ 31)
    (hAfin : ∀ x ∈ A.data, x.Finite) (hBfin : ∀ x ∈ B.data, x.Finite)
    (hZz : ∀ x ∈ Z.data, x.IsZero) (hZ'z : ∀ x ∈ Z'.data, x.IsZero) :
    (∃ C, multiply_serial A Z (m : Int) (n : Int) (p : Int) = .ok C ∧
      C.HasShape m p ∧ ∀ x ∈ C.data, x = Double.zero) ∧
    (∃ C, multiply_serial Z' B (m : Int) (n : Int) (p : Int) = .ok C ∧
      C.HasShape m p ∧ ∀ x ∈ C.data, x = Double.zero) := by
  constructor
  · obtain ⟨C, hrun, hC, hent⟩ := run_schedule hA hZ hfit (List.Perm.refl (iterationSpace m p))
    refine ⟨C, ?_, hC, ?_⟩
    · rw [multiply_serial_eq]
      exact hrun
    · intro x hx
      obtain ⟨i, j, hi, hj, rfl⟩ := hC.mem_data hx
      rw [hent i j hi hj]
      exact dotFrom_right_zero _ _ n i j (fun k hk => hAfin _ (hA.entry_mem hi hk))
        (fun k hk => hZz _ (hZ.entry_mem hk hj))
  · obtain ⟨C, hrun, hC, hent⟩ := run_schedule hZ' hB hfit (List.Perm.refl (iterationSpace m p))
    refine ⟨C, ?_, hC, ?_⟩
    · rw [multiply_serial_eq]
      exact hrun
    · intro x hx
      obtain ⟨i, j, hi, hj, rfl⟩ := hC.mem_data hx
      rw [hent i j hi hj]
      exact dotFrom_left_zero _ _ n i j (fun k hk => hZ'z _ (hZ'.entry_mem hi hk))
        (fun k hk => hBfin _ (hB.entry_mem hk hj))

/-! ## Reading -/

theorem readElement_eq {M : Matrix} {rows cols i j : Nat} (h : M.HasShape rows cols)
    (hi : i < rows) (hj : j < cols) (s : List Char) :
    readElement i j (s, M)
      = match scan_double s with
        | some (v, rest) => .ok (rest, { M with data := M.data.set (i * cols + j) v })
        | none => .exit EXIT_FAILURE := by
  unfold readElement
  cases hs : scan_double s with
  | none => rfl
  | some vr =>
    obtain ⟨v, rest⟩ := vr
    simp only [h.store_eq hi hj, Res.ok_bind]

/-- Reading the cells of a list one after the other fails exactly when one of as
many successive conversions fails, and keeps the shape of the matrix. -/
theorem forEach_readElement {rows cols : Nat} (L : List (Nat × Nat)) :
    ∀ (s : List Char) (M : Matrix), M.HasShape rows cols →
      (∀ ij ∈ L, ij.1 < rows ∧ ij.2 < cols) →
      (scan_doubles L.length s = none →
        forEach (fun ij st => readElement ij.1 ij.2 st) L (s, M) = .exit EXIT_FAILURE) ∧
      (∀ vs rest, scan_doubles L.length s = some (vs, rest) →
        ∃ M', forEach (fun ij st => readElement ij.1 ij.2 st) L (s, M) = .ok (rest, M') ∧
          M'.HasShape rows cols) := by
  induction L with
  | nil =>
    intro s M hM _
    refine ⟨fun h => by simp [scan_doubles] at h, fun vs rest h => ?_⟩
    simp only [List.length_nil, scan_doubles, Option.some.injEq, Prod.mk.injEq] at h
    obtain ⟨_, rfl⟩ := h
    exact ⟨M, rfl, hM⟩
  | cons c L ih =>
    intro s M hM hin
    have hc := hin c (List.mem_cons_self _ _)
    have hin' : ∀ ij ∈ L, ij.1 < rows ∧ ij.2 < cols := fun ij h => hin ij (List.mem_cons_of_mem _ h)
    simp only [List.length_cons, scan_doubles, forEach, readElement_eq hM hc.1 hc.2]
    cases hs : scan_double s with
    | none => exact ⟨fun _ => rfl, fun vs rest h => by simp at h⟩
    | some vr =>
      obtain ⟨v, r⟩ := vr
      obtain ⟨ih1, ih2⟩ := ih r _ (hM.set (c.1 * cols + c.2) v) hin'
      simp only [Res.ok_bind]
      cases hr : scan_doubles L.length r with
      | none => exact ⟨fun _ => ih1 hr, fun vs rest h => by simp at h⟩
      | some vsr =>
        obtain ⟨vs', r'⟩ := vsr
        refine ⟨fun h => by simp at h, fun vs rest h => ?_⟩
        simp only [Option.some.injEq, Prod.mk.injEq] at h
        obtain ⟨_, rfl⟩ := h
        exact ih2 vs' r' hr

theorem length_iterationSpace (rows cols : Nat) : (iterationSpace rows cols).length = rows * cols := by
  have h := List.length_product (List.range rows) (List.range cols)
  rw [List.length_range, List.length_range] at h
  exact h

/-- The part of `read_matrix` after the header, for dimensions whose product fits. -/
theorem read_elements {rows cols : Nat} (hfit : rows * cols < 2 ^ 31) (s : List Char) :
    (scan_doubles (rows * cols) s = none →
      (allocate_matrix (rows : Int) (cols : Int)).bind (fun M =>
        (forLoop (fun i st => forLoop (fun j st => readElement i j st) (cols : Int).toNat 0 st)
          (rows : Int).toNat 0 (s, M)).bind fun st => .ok ((rows : Int), (cols : Int), st.2))
        = .exit EXIT_FAILURE) ∧
    (∀ vs rest, scan_doubles (rows * cols) s = some (vs, rest) →
      ∃ M', (allocate_matrix (rows : Int) (cols : Int)).bind (fun M =>
        (forLoop (fun i st => forLoop (fun j st => readElement i j st) (cols : Int).toNat 0 st)
          (rows : Int).toNat 0 (s, M)).bind fun st => .ok ((rows : Int), (cols : Int), st.2))
        = .ok ((rows : Int), (cols : Int), M') ∧ M'.HasShape rows cols) := by
  have hloop := loopNest_eq_forEach (fun i j st => readElement i j st) rows cols
  obtain ⟨h1, h2⟩ := forEach_readElement (iterationSpace rows cols) s _
    (allocate_matrix_shape hfit) (fun ij h => mem_iterationSpace.mp h)
  rw [length_iterationSpace] at h1 h2
  simp only [allocate_matrix_eq hfit, Res.ok_bind, Int.toNat_natCast, hloop]
  constructor
  · intro h
    rw [h1 h]
    rfl
  · intro vs rest h
    obtain ⟨M', hrun, hM'⟩ := h2 vs rest h
    exact ⟨M', by rw [hrun]; rfl, hM'⟩

/-- A matrix that `read_matrix` returns has the shape that the header declares. -/
theorem read_matrix_shape {fs : FS} {path : String} {rows cols : Nat} {A : Matrix}
    (h : read_matrix fs path = .ok ((rows : Int), (cols : Int), A)) : A.HasShape rows cols := by
  unfold read_matrix at h
  cases hc : fs.content path with
  | none => simp [hc] at h
  | some text =>
    simp only [hc] at h
    cases h1 : scan_int text with
    | fail => simp [h1] at h
    | ub => simp [h1] at h
    | ok r s₁ =>
      simp only [h1] at h
      cases h2 : scan_int s₁ with
      | fail => simp [h2] at h
      | ub => simp [h2] at h
      | ok c s₂ =>
        simp only [h2] at h
        have hrc : r = (rows : Int) ∧ c = (cols : Int) := by
          cases ha : allocate_matrix r c with
          | exit k => simp [ha] at h
          | ub => simp [ha] at h
          | ok M =>
            simp only [ha, Res.ok_bind] at h
            cases hl : forLoop (fun i st => forLoop (fun j st => readElement i j st) c.toNat 0 st)
                r.toNat 0 (s₂, M) with
            | exit k => simp [hl] at h
            | ub => simp [hl] at h
            | ok st =>
              simp only [hl, Res.ok_bind, Res.ok.injEq, Prod.mk.injEq] at h
              exact ⟨h.1, h.2.1⟩
        obtain ⟨rfl, rfl⟩ := hrc
        have hfit : rows * cols < 2 ^ 31 := by
          by_contra hn
          have hni : ¬ inInt ((rows : Int) * (cols : Int)) := by
            intro hi
            apply hn
            have := hi.2
            exact_mod_cast this
          simp [allocate_matrix, hni] at h
        obtain ⟨h3, h4⟩ := read_elements hfit s₂
        cases hd : scan_doubles (rows * cols) s₂ with
        | none =>
          rw [h3 hd] at h
          simp at h
        | some vr =>
          obtain ⟨vs, rest⟩ := vr
          obtain ⟨M', hM', hshape⟩ := h4 vs rest hd
          rw [hM'] at h
          simp only [Res.ok.injEq, Prod.mk.injEq, true_and] at h
          rw [← h]
          exact hshape

/-! ## Writing -/

theorem forLoop_congr {σ : Type} (body body' : Nat → σ → Res σ) (n : Nat) :
    ∀ (i : Nat) (s : σ), (∀ k, i ≤ k → k < i + n → ∀ s, body k s = body' k s) →
      forLoop body n i s = forLoop body' n i s := by
  induction n with
  | zero => intro i s _; rfl
  | succ n ih =>
    intro i s h
    simp only [forLoop, h i (Nat.le_refl i) (by omega)]
    congr 1
    funext s'
    exact ih (i + 1) s' (fun k h1 h2 => h k (by omega) (by omega))

theorem forLoop_append_out (g : Nat → List Char) (n : Nat) :
    ∀ (i : Nat) (out : List Char),
      forLoop (fun k out => .ok (out ++ g k)) n i out = .ok (out ++ (List.range' i n).flatMap g) := by
  induction n with
  | zero => intro i out; simp [forLoop]
  | succ n ih =>
    intro i out
    simp only [forLoop, Res.ok_bind, ih, List.range'_succ, List.flatMap_cons, List.append_assoc]

/-- `write_matrix` on a matrix of the given shape writes the rendered rows. -/
theorem write_matrix_eq {M : Matrix} {rows cols : Nat} (hM : M.HasShape rows cols)
    (fs : FS) (path : String) (hw : fs.writable path = true) :
    write_matrix fs path M (rows : Int) (cols : Int)
      = .ok (fs.write path (render (M.entry cols) rows cols)) := by
  unfold write_matrix
  rw [if_pos hw, Int.toNat_natCast, Int.toNat_natCast]
  have hbody : ∀ k, 0 ≤ k → k < 0 + rows → ∀ out : List Char,
      (forLoop (fun j out => (M.load k j).bind fun v => .ok (out ++ format_2f v ++ [Char.ofNat 32]))
          cols 0 out).bind (fun out => Res.ok (out ++ [Char.ofNat 10]))
        = .ok (out ++ (((List.range cols).flatMap fun j =>
            format_2f (M.entry cols k j) ++ [Char.ofNat 32]) ++ [Char.ofNat 10])) := by
    intro k _ hk out
    have hk' : k < rows := by omega
    rw [forLoop_congr _ (fun j out => .ok (out ++ (format_2f (M.entry cols k j) ++ [Char.ofNat 32])))
      cols 0 out (fun j _ hj out => by
        rw [hM.load_eq hk' (by omega), Res.ok_bind, List.append_assoc])]
    rw [forLoop_append_out, Res.ok_bind, ← List.range_eq_range', List.append_assoc]
  have h := forLoop_congr _ (fun k out => .ok (out ++ (((List.range cols).flatMap fun j =>
      format_2f (M.entry cols k j) ++ [Char.ofNat 32]) ++ [Char.ofNat 10]))) rows 0 [] hbody
  have hsp : (' ' : Char) = Char.ofNat 32 := rfl
  have hnl : ('\n' : Char) = Char.ofNat 10 := rfl
  simp only [hsp, hnl] at *
  rw [h, forLoop_append_out, Res.ok_bind, ← List.range_eq_range', List.nil_append]
  rfl

/-! ## The driver -/

theorem free_matrix_ok {M : Matrix} {rows cols : Nat} (hM : M.HasShape rows cols)
    (hr : 0 < rows) : free_matrix M = .ok () := by
  obtain ⟨k, rfl⟩ : ∃ k, rows = k + 1 := ⟨rows - 1, by omega⟩
  unfold free_matrix
  rw [hM.2.2, List.range_succ_eq_map]
  simp

/-- Claim C4. When the two input files hold matrices `A` of shape `m × n` and `B` of
shape `q × p` with `n ≠ q`, `main` ends with `EXIT_FAILURE` and leaves the file
system as it was: `write_matrix` is not reached. -/
theorem main_dimension_mismatch (sched : List (Nat × Nat)) (fs : FS)
    (prog pathA pathB pathOut : String) (m n q p : Nat) (A B : Matrix)
    (hA : read_matrix fs pathA = .ok ((m : Int), (n : Int), A))
    (hB : read_matrix fs pathB = .ok ((q : Int), (p : Int), B))
    (hm : 0 < m) (hn : 0 < n) (hq : 0 < q) (hp : 0 < p) (hne : n ≠ q) :
    main sched fs [prog, pathA, pathB, pathOut] = .terminated EXIT_FAILURE fs := by
  have hfA := free_matrix_ok (read_matrix_shape hA) hm
  have hfB := free_matrix_ok (read_matrix_shape hB) hq
  have hne' : ((n : Int) ≠ (q : Int)) := by exact_mod_cast hne
  simp only [main, mainBody, hA, hB, Res.ok_bind, if_pos hne', hfA, hfB]

theorem forLoop_skip {σ : Type} (n : Nat) : ∀ (i : Nat) (s : σ),
    forLoop (fun _ s => Res.ok s) n i s = .ok s := by
  induction n with
  | zero => intro i s; rfl
  | succ n ih => intro i s; simp only [forLoop, Res.ok_bind, ih]

/-- Claim C5, as amended. When the header of a file declares positive dimensions `r`
and `c` whose product is representable in `int`, and fewer than `r * c` successive
`%lf` conversions succeed on the text after the header, `read_matrix` ends the
process with `EXIT_FAILURE`; so does `main`, leaving the file system as it was, when
the file is its first input, or its second input after a first one that was read. -/
theorem read_matrix_too_few (fs : FS) (path : String) (text s₁ s₂ : List Char) (r c : Nat)
    (htext : fs.content path = some text)
    (h1 : scan_int text = .ok (r : Int) s₁) (h2 : scan_int s₁ = .ok (c : Int) s₂)
    (hr : 0 < r) (hc : 0 < c) (hfit : r * c < 2 ^ 31)
    (hshort : scan_doubles (r * c) s₂ = none) :
    read_matrix fs path = .exit EXIT_FAILURE ∧
    (∀ sched prog pathB pathOut,
      main sched fs [prog, path, pathB, pathOut] = .terminated EXIT_FAILURE fs) ∧
    (∀ sched prog pathA pathOut rowsA colsA A,
      read_matrix fs pathA = .ok (rowsA, colsA, A) →
      main sched fs [prog, pathA, path, pathOut] = .terminated EXIT_FAILURE fs) ∧
    EXIT_FAILURE ≠ 0 := by
  have hread : read_matrix fs path = .exit EXIT_FAILURE := by
    unfold read_matrix
    simp only [htext, h1, h2]
    exact (read_elements hfit s₂).1 hshort
  refine ⟨hread, ?_, ?_, by decide⟩
  · intro sched prog pathB pathOut
    simp only [main, mainBody, hread, Res.exit_bind]
  · intro sched prog pathA pathOut rowsA colsA A hA
    simp only [main, mainBody, hA, hread, Res.ok_bind, Res.exit_bind]

/-- Claim C6, as amended. `allocate_matrix` does not check its arguments: for
`rows ≤ 0` or `cols ≤ 0` with a product representable in `int` it returns a matrix, and
`read_matrix` on a file whose header declares such dimensions returns them with that
matrix as allocated, reading no element. -/
theorem allocate_matrix_nonpositive (rows cols : Int) (h : rows ≤ 0 ∨ cols ≤ 0)
    (hfit : inInt (rows * cols)) :
    ∃ M, allocate_matrix rows cols = .ok M ∧
      M.row.length = rows.toNat ∧
      (rows * cols ≤ 0 → M.data = []) ∧
      ∀ (fs : FS) (path : String) (text s₁ s₂ : List Char),
        fs.content path = some text → scan_int text = .ok rows s₁ →
        scan_int s₁ = .ok cols s₂ → read_matrix fs path = .ok (rows, cols, M) := by
  refine ⟨_, by rw [allocate_matrix, if_pos hfit], by simp, ?_, ?_⟩
  · intro hle
    have : (rows * cols).toNat = 0 := by omega
    simp [this]
  · intro fs path text s₁ s₂ htext h1 h2
    unfold read_matrix
    simp only [htext, h1, h2, allocate_matrix, if_pos hfit, Res.ok_bind]
    rcases h with h | h
    · have : rows.toNat = 0 := by omega
      rw [this]
      rfl
    · have : cols.toNat = 0 := by omega
      rw [this]
      simp only [forLoop]
      rw [forLoop_skip]
      rfl

/-! ## Reading back what `write_matrix` wrote -/

theorem isDigit_digitChar {d : Nat} (h : d < 10) : isDigit (digitChar d) = true := by
  interval_cases d <;> rfl

theorem digitValue_digitChar {d : Nat} (h : d < 10) : digitValue (digitChar d) = d := by
  interval_cases d <;> rfl

theorem natDigitsAux_isDigit (f : Nat) : ∀ (n : Nat) (acc : List Char),
    (∀ c ∈ acc, isDigit c = true) → ∀ c ∈ natDigitsAux f n acc, isDigit c = true := by
  induction f with
  | zero => intro n acc h; exact h
  | succ f ih =>
    intro n acc h
    unfold natDigitsAux
    split
    · next hn =>
      intro c hc
      rcases List.mem_cons.mp hc with rfl | hc
      · exact isDigit_digitChar hn
      · exact h c hc
    · apply ih
      intro c hc
      rcases List.mem_cons.mp hc with rfl | hc
      · exact isDigit_digitChar (Nat.mod_lt _ (by decide))
      · exact h c hc

theorem natDigitsAux_ne_nil (f : Nat) : ∀ (n : Nat) (acc : List Char),
    natDigitsAux (f + 1) n acc ≠ [] := by
  induction f with
  | zero =>
    intro n acc
    unfold natDigitsAux
    split
    · simp
    · simp [natDigitsAux]
  | succ f ih =>
    intro n acc
    rw [natDigitsAux]
    split
    · simp
    · exact ih _ _

theorem digitsValue_natDigitsAux (f : Nat) : ∀ (n : Nat) (acc : List Char), n < f →
    digitsValue 0 (natDigitsAux f n acc) = digitsValue n acc := by
  induction f with
  | zero => intro n acc h; omega
  | succ f ih =>
    intro n acc h
    unfold natDigitsAux
    split
    · next hn => simp [digitsValue, digitValue_digitChar hn]
    · next hn =>
      rw [ih (n / 10) _ (by omega)]
      simp only [digitsValue, List.foldl_cons, digitValue_digitChar (Nat.mod_lt n (by decide : 0 < 10))]
      congr 1
      omega

theorem scanDigits_append (ds : List Char) : ∀ (acc cnt : Nat) (c : Char) (rest : List Char),
    (∀ d ∈ ds, isDigit d = true) → isDigit c = false →
    scanDigits (ds ++ c :: rest) acc cnt = (digitsValue acc ds, cnt + ds.length, c :: rest) := by
  induction ds with
  | nil =>
    intro acc cnt c rest _ hc
    simp [scanDigits, hc, digitsValue]
  | cons d ds ih =>
    intro acc cnt c rest hd hc
    have h1 := hd d (List.mem_cons_self _ _)
    rw [List.cons_append, scanDigits, if_pos h1]
    rw [ih _ _ c rest (fun x hx => hd x (List.mem_cons_of_mem _ hx)) hc]
    simp only [digitsValue, List.foldl_cons, List.length_cons]
    congr 2
    omega

theorem isDigit_not_special {c : Char} (h : isDigit c = true) :
    isSpace c = false ∧ c ≠ '-' ∧ c ≠ '+' := by
  simp only [isDigit, Bool.and_eq_true, decide_eq_true_eq] at h
  refine ⟨?_, ?_, ?_⟩
  · simp only [isSpace, Bool.or_eq_false_iff, decide_eq_false_iff_not, Bool.and_eq_false_imp,
      decide_eq_true_eq]
    omega
  · rintro rfl
    simp at h
  · rintro rfl
    simp at h

theorem scan_int_point (t : List Char) : scan_int ('.' :: t) = .fail := rfl

/-- `%d` on a run of digits that a point follows: the number read and the text from
the point on, or undefined behaviour when `int` cannot hold the number. -/
theorem scan_int_digits (neg : Bool) (ds tail : List Char) (hne : ds ≠ [])
    (hds : ∀ d ∈ ds, isDigit d = true) :
    scan_int ((if neg then ['-'] else []) ++ ds ++ '.' :: tail)
      = if inInt (if neg then -(digitsValue 0 ds : Int) else (digitsValue 0 ds : Int))
        then .ok (if neg then -(digitsValue 0 ds : Int) else (digitsValue 0 ds : Int)) ('.' :: tail)
        else .ub := by
  obtain ⟨d, ds', rfl⟩ := List.exists_cons_of_ne_nil hne
  have hd := isDigit_not_special (hds d (List.mem_cons_self _ _))
  have hscan := scanDigits_append (d :: ds') 0 0 '.' tail hds rfl
  have hlen : ¬ (0 + (d :: ds').length = 0) := by simp
  rw [List.cons_append] at hscan
  cases neg
  · simp only [Bool.false_eq_true, if_false, List.nil_append, List.cons_append, scan_int,
      skipSpace, hd.1, scanSign, if_neg hd.2.1, if_neg hd.2.2, List.append_eq, hscan, hlen]
  · have h1 : isSpace '-' = false := rfl
    simp only [if_true, List.cons_append, List.nil_append, scan_int, skipSpace, h1,
      Bool.false_eq_true, if_false, scanSign, List.append_eq, hscan, hlen]

theorem natDigits_spec (n : Nat) :
    natDigits n ≠ [] ∧ (∀ d ∈ natDigits n, isDigit d = true) ∧ digitsValue 0 (natDigits n) = n := by
  refine ⟨natDigitsAux_ne_nil n n [], natDigitsAux_isDigit _ _ _ (by simp), ?_⟩
  unfold natDigits
  rw [digitsValue_natDigitsAux (n + 1) n [] (by omega)]
  rfl

/-- `%d` on an element as `%.2lf` prints it: a failure on `inf` and `nan`, otherwise
the integer part with the text left starting at the decimal point. -/
theorem scan_int_format_2f (x : Double) (tail : List Char) :
    (scan_int (format_2f x ++ tail) = .fail ∨
      scan_int (format_2f x ++ tail) = .ub ∨
      ∃ v t, scan_int (format_2f x ++ tail) = .ok v ('.' :: t)) ∧
    (x.integerPartFits → scan_int (format_2f x ++ tail) ≠ .ub) := by
  cases x with
  | nan => exact ⟨Or.inl rfl, fun _ h => by cases h⟩
  | inf s =>
    cases s
    · exact ⟨Or.inl rfl, fun _ h => by cases h⟩
    · exact ⟨Or.inl rfl, fun _ h => by cases h⟩
  | fin s m e =>
    obtain ⟨hne, hds, hval⟩ := natDigits_spec (centi m e / 100)
    have h := scan_int_digits s (natDigits (centi m e / 100))
      (digitChar (centi m e % 100 / 10) :: digitChar (centi m e % 10) :: tail) hne hds
    have htext : format_2f (.fin s m e) ++ tail
        = (if s then ['-'] else []) ++ natDigits (centi m e / 100) ++
          '.' :: digitChar (centi m e % 100 / 10) :: digitChar (centi m e % 10) :: tail := by
      simp [format_2f]
    rw [htext, h, hval]
    constructor
    · by_cases hin : inInt (if s then -((centi m e / 100 : Nat) : Int)
          else ((centi m e / 100 : Nat) : Int))
      · rw [if_pos hin]
        exact Or.inr (Or.inr ⟨_, _, rfl⟩)
      · rw [if_neg hin]
        exact Or.inr (Or.inl rfl)
    · intro hfit
      have hfit' : centi m e / 100 < 2 ^ 31 := hfit
      have hin : inInt (if s then -((centi m e / 100 : Nat) : Int) else ((centi m e / 100 : Nat) : Int)) := by
        unfold inInt
        cases s
        · simp only [Bool.false_eq_true, if_false]
          constructor
          · have : (0 : Int) ≤ ((centi m e / 100 : Nat) : Int) := Int.natCast_nonneg _
            omega
          · exact_mod_cast hfit'
        · simp only [if_true]
          constructor
          · have : ((centi m e / 100 : Nat) : Int) < 2 ^ 31 := by exact_mod_cast hfit'
            omega
          · have : (0 : Int) ≤ ((centi m e / 100 : Nat) : Int) := Int.natCast_nonneg _
            omega
      rw [if_pos hin]
      intro h
      cases h

theorem render_head (a : Nat → Nat → Double) (rows cols : Nat) (hr : 1 ≤ rows) (hc : 1 ≤ cols) :
    ∃ tail, render a rows cols = format_2f (a 0 0) ++ tail := by
  obtain ⟨r, rfl⟩ : ∃ r, rows = r + 1 := ⟨rows - 1, by omega⟩
  obtain ⟨c, rfl⟩ : ∃ c, cols = c + 1 := ⟨cols - 1, by omega⟩
  unfold render
  rw [List.range_succ_eq_map, List.flatMap_cons, List.range_succ_eq_map, List.flatMap_cons]
  simp only [List.append_assoc]
  exact ⟨_, rfl⟩

/-- `read_matrix` on a text that starts with an element in `%.2lf`. -/
theorem read_matrix_formatted (fs : FS) (path : String) (x : Double) (tail : List Char)
    (htext : fs.content path = some (format_2f x ++ tail)) :
    (read_matrix fs path = .exit EXIT_FAILURE ∨ read_matrix fs path = .ub) ∧
    (x.integerPartFits → read_matrix fs path = .exit EXIT_FAILURE) := by
  obtain ⟨h1, h2⟩ := scan_int_format_2f x tail
  unfold read_matrix
  simp only [htext]
  rcases h1 with h | h | ⟨v, t, h⟩
  · simp [h]
  · exact ⟨by simp [h], fun hf => absurd h (h2 hf)⟩
  · simp [h, scan_int_point]

/-- Claim C3, as amended. For a matrix of shape `rows × cols` with `rows ≥ 1` and
`cols ≥ 1`, written by `write_matrix` to a path that can be opened for writing,
`read_matrix` on the file written returns no matrix: the file has no header, `%d`
reads the integer part of the first element and the next `%d` stops at its decimal
point, so that `read_matrix` ends the process with `EXIT_FAILURE` (the conversion is
undefined behaviour when that integer part does not fit in `int`). -/
theorem write_then_read_fails (fs : FS) (path : String) (M : Matrix) (rows cols : Nat)
    (hM : M.HasShape rows cols) (hr : 1 ≤ rows) (hc : 1 ≤ cols)
    (hw : fs.writable path = true) :
    ∃ fs', write_matrix fs path M (rows : Int) (cols : Int) = .ok fs' ∧
      fs'.content path = some (render (M.entry cols) rows cols) ∧
      (read_matrix fs' path = .exit EXIT_FAILURE ∨ read_matrix fs' path = .ub) ∧
      ((M.entry cols 0 0).integerPartFits → read_matrix fs' path = .exit EXIT_FAILURE) := by
  have hcontent : (fs.write path (render (M.entry cols) rows cols)).content path
      = some (render (M.entry cols) rows cols) := by
    simp [FS.write]
  obtain ⟨tail, htail⟩ := render_head (M.entry cols) rows cols hr hc
  have hread := read_matrix_formatted (fs.write path (render (M.entry cols) rows cols)) path
    (M.entry cols 0 0) tail (by rw [hcontent, htail])
  exact ⟨_, write_matrix_eq hM fs path hw, hcontent, hread.1, hread.2⟩

/-! ## The claims on sample data -/

/-- Claim C1 fails as stated: for a column of `65536` elements and a row of `65536`
elements, the count `65536 * 65536` of result elements overflows `int` in
`allocate_matrix`, and neither multiplication returns a matrix. -/
theorem multiply_parallel_overflow :
    longColumn.HasShape 65536 1 ∧ longRow.HasShape 1 65536 ∧
    Schedule 65536 65536 (iterationSpace 65536 65536) ∧
    multiply_parallel (iterationSpace 65536 65536) longColumn longRow
      ((65536 : Nat) : Int) ((1 : Nat) : Int) ((65536 : Nat) : Int) = .ub ∧
    multiply_serial longColumn longRow
      ((65536 : Nat) : Int) ((1 : Nat) : Int) ((65536 : Nat) : Int) = .ub :=
  ⟨allocate_matrix_shape (by norm_num), allocate_matrix_shape (by norm_num), List.Perm.refl _,
    by decide!, by decide!⟩

/-- Witness of C1: `[[1, 2], [3, 4]]` times `[[5, 6], [7, 8]]` under a schedule out
of source order. -/
theorem multiply_parallel_eq_serial_witness :
    sampleA.HasShape 2 2 ∧ sampleB.HasShape 2 2 ∧ Schedule 2 2 sampleSchedule ∧
    ∃ C, multiply_parallel sampleSchedule sampleA sampleB
        ((2 : Nat) : Int) ((2 : Nat) : Int) ((2 : Nat) : Int) = .ok C ∧
      multiply_serial sampleA sampleB ((2 : Nat) : Int) ((2 : Nat) : Int) ((2 : Nat) : Int)
        = .ok C ∧
      C.HasShape 2 2 :=
  ⟨by decide, by decide, by decide,
    multiply_parallel_eq_serial sampleA sampleB 2 2 2 sampleSchedule (by decide) (by decide)
      (by decide) (by decide)⟩

/-- Claim C2 fails as stated: the product of a column of `65536` elements and a row
of `65536` elements has `65536 * 65536` elements, a count that overflows `int`, and
`multiply_serial` returns no matrix. -/
theorem multiply_serial_overflow :
    longColumn.HasShape 65536 1 ∧ longRow.HasShape 1 65536 ∧
    multiply_serial longColumn longRow
      ((65536 : Nat) : Int) ((1 : Nat) : Int) ((65536 : Nat) : Int) = .ub :=
  ⟨allocate_matrix_shape (by norm_num), allocate_matrix_shape (by norm_num), by decide!⟩

/-- Witness of C2: a `1 × 3` matrix of ones times a `3 × 1` matrix of ones is `[[3]]`. -/
theorem multiply_serial_spec_witness :
    (∃ C, multiply_serial onesRow onesColumn ((1 : Nat) : Int) ((3 : Nat) : Int) ((1 : Nat) : Int)
        = .ok C ∧
      C.HasShape 1 1 ∧ C.row.length = 1 ∧
      ∀ i j, i < 1 → j < 1 →
        C.load i j = .ok (dot (onesRow.entry 3) (onesColumn.entry 1) 3 i j)) ∧
    dot (onesRow.entry 3) (onesColumn.entry 1) 3 0 0 = Double.ofNat 3 ∧
    multiply_serial onesRow onesColumn 1 3 1 = .ok (Matrix.ofRows 1 [[Double.ofNat 3]]) :=
  ⟨multiply_serial_spec onesRow onesColumn 1 3 1 (by decide) (by decide) (by decide),
    by decide!, by decide!⟩

/-- Claim C3 fails as stated: `read_matrix` on the file that `write_matrix` wrote for
`[[1, 2], [3, 4]]`, which starts with `1.00 2.00`, ends the process. -/
theorem write_then_read_exits :
    sampleA.HasShape 2 2 ∧ sampleFS.writable "out.txt" = true ∧
    (write_matrix sampleFS "out.txt" sampleA 2 2).bind (fun fs => read_matrix fs "out.txt")
      = .exit EXIT_FAILURE :=
  ⟨by decide, by decide, by decide!⟩

/-- Witness of C3 on `[[1, 2], [3, 4]]`. -/
theorem write_then_read_fails_witness :
    ∃ fs', write_matrix sampleFS "out.txt" sampleA ((2 : Nat) : Int) ((2 : Nat) : Int) = .ok fs' ∧
      fs'.content "out.txt" = some (render (sampleA.entry 2) 2 2) ∧
      (read_matrix fs' "out.txt" = .exit EXIT_FAILURE ∨ read_matrix fs' "out.txt" = .ub) ∧
      ((sampleA.entry 2 0 0).integerPartFits → read_matrix fs' "out.txt" = .exit EXIT_FAILURE) :=
  write_then_read_fails sampleFS "out.txt" sampleA 2 2 (by decide) (by decide) (by decide)
    (by decide)

/-- Witness of C4: a `2 × 2` matrix and a `3 × 1` matrix. -/
theorem main_dimension_mismatch_witness :
    read_matrix sampleFS "a.txt" = .ok (((2 : Nat) : Int), ((2 : Nat) : Int), sampleA) ∧
    read_matrix sampleFS "column.txt" = .ok (((3 : Nat) : Int), ((1 : Nat) : Int), sampleColumn) ∧
    main sampleSchedule sampleFS ["prog", "a.txt", "column.txt", "out.txt"]
      = .terminated EXIT_FAILURE sampleFS :=
  ⟨by decide!, by decide!,
    main_dimension_mismatch sampleSchedule sampleFS "prog" "a.txt" "column.txt" "out.txt"
      2 2 3 1 sampleA sampleColumn (by decide!) (by decide!) (by decide) (by decide) (by decide)
      (by decide) (by decide)⟩

/-- Claim C5 fails as stated: the header `65536 65536` declares positive dimensions
and three numbers follow it, yet `read_matrix` does not fail with a format error: the
count `65536 * 65536` overflows `int` in `allocate_matrix`. -/
theorem read_matrix_huge_header :
    sampleFS.content "huge.txt" = some "65536 65536\n1 2 3\n".toList ∧
    scan_int "65536 65536\n1 2 3\n".toList = .ok 65536 " 65536\n1 2 3\n".toList ∧
    scan_int " 65536\n1 2 3\n".toList = .ok 65536 "\n1 2 3\n".toList ∧
    scan_doubles (65536 * 65536) "\n1 2 3\n".toList = none ∧
    read_matrix sampleFS "huge.txt" = .ub :=
  ⟨by decide, by decide!, by decide!, by decide!, by decide!⟩

/-- The conversions of `fscanf` do not stop at white space only: after the header
`2 2`, the two tokens `1.5.5` and `2.5.5`, neither of which is a number, are read as
the four numbers `1.5`, `.5`, `2.5` and `.5`, and `read_matrix` returns a matrix. -/
theorem read_matrix_glued_tokens :
    splitTokens "1.5.5 2.5.5\n".toList = ["1.5.5".toList, "2.5.5".toList] ∧
    isNumberToken "1.5.5".toList = false ∧ isNumberToken "2.5.5".toList = false ∧
    read_matrix sampleFS "glued.txt"
      = .ok (2, 2, Matrix.ofRows 2
          [[Double.ofDecimal false 15 (-1), Double.ofDecimal false 5 (-1)],
           [Double.ofDecimal false 25 (-1), Double.ofDecimal false 5 (-1)]]) :=
  ⟨by decide, by decide!, by decide!, by decide!⟩

/-- Witness of C5: a file that declares `2 2` and holds three numbers. -/
theorem read_matrix_too_few_witness :
    read_matrix sampleFS "short.txt" = .exit EXIT_FAILURE ∧
    (∀ sched prog pathB pathOut,
      main sched sampleFS [prog, "short.txt", pathB, pathOut]
        = .terminated EXIT_FAILURE sampleFS) ∧
    (∀ sched prog pathA pathOut rowsA colsA A,
      read_matrix sampleFS pathA = .ok (rowsA, colsA, A) →
      main sched sampleFS [prog, pathA, "short.txt", pathOut]
        = .terminated EXIT_FAILURE sampleFS) ∧
    EXIT_FAILURE ≠ 0 :=
  read_matrix_too_few sampleFS "short.txt" "2 2\n1 2\n3\n".toList " 2\n1 2\n3\n".toList
    "\n1 2\n3\n".toList 2 2 (by decide) (by decide!) (by decide!) (by decide) (by decide)
    (by decide) (by decide!)

/-- Claim C6 fails as stated: `allocate_matrix` returns a matrix for the dimensions
`0 × 3` and `-1 × 2`, and `read_matrix` returns normally on the headers `0 3` and
`-1 2`. -/
theorem allocate_matrix_nonpositive_returns :
    allocate_matrix 0 3 = .ok { data := [], row := [] } ∧
    allocate_matrix (-1) 2 = .ok { data := [], row := [] } ∧
    read_matrix sampleFS "empty.txt" = .ok (0, 3, { data := [], row := [] }) ∧
    read_matrix sampleFS "negative.txt" = .ok (-1, 2, { data := [], row := [] }) :=
  ⟨by decide, by decide, by decide!, by decide!⟩

/-- Witness of C6 on the dimensions `0 × 3`. -/
theorem allocate_matrix_nonpositive_witness :
    ∃ M, allocate_matrix 0 3 = .ok M ∧
      M.row.length = (0 : Int).toNat ∧
      ((0 : Int) * 3 ≤ 0 → M.data = []) ∧
      ∀ (fs : FS) (path : String) (text s₁ s₂ : List Char),
        fs.content path = some text → scan_int text = .ok 0 s₁ →
        scan_int s₁ = .ok 3 s₂ → read_matrix fs path = .ok (0, 3, M) :=
  allocate_matrix_nonpositive 0 3 (Or.inl (by decide)) (by decide)

/-- Claim C8 fails as stated: `[[inf, 0]]` times the `2 × 2` identity matrix is
`[[inf, nan]]`, because `inf * 0` is NaN; the second element is not the `0` of the
input. -/
theorem multiply_identity_infinite :
    infRow.HasShape 1 2 ∧ (Matrix.identity 2).IsIdentity 2 ∧
    multiply_serial infRow (Matrix.identity 2) 1 2 2
      = .ok (Matrix.ofRows 2 [[Double.inf false, Double.nan]]) ∧
    infRow.entry 2 0 1 = Double.zero ∧
    (Matrix.ofRows 2 [[Double.inf false, Double.nan]]).entry 2 0 1 = Double.nan ∧
    Double.ceq Double.nan Double.zero = false :=
  ⟨by decide, by decide, by decide!, by decide, by decide, by decide⟩

/-- Witness of C8: `[[1, 2], [3, 4]]` times the `2 × 2` identity matrix. -/
theorem multiply_serial_identity_witness :
    ∃ C, multiply_serial sampleA (Matrix.identity 2)
        ((2 : Nat) : Int) ((2 : Nat) : Int) ((2 : Nat) : Int) = .ok C ∧
      C.HasShape 2 2 ∧
      ∀ i j, i < 2 → j < 2 →
        C.entry 2 i j = (sampleA.entry 2 i j).dropZeroSign ∧
        Double.ceq (C.entry 2 i j) (sampleA.entry 2 i j) = true :=
  multiply_serial_identity sampleA (Matrix.identity 2) 2 2 (by decide) (by decide) (by decide)

/-- Claim C9 fails as stated: `[[inf]]` times the zero matrix `[[0]]` is `[[nan]]`,
and so is `[[0]]` times `[[inf]]`. -/
theorem multiply_zero_infinite :
    infCell.HasShape 1 1 ∧ zeroCell.HasShape 1 1 ∧
    multiply_serial infCell zeroCell 1 1 1 = .ok (Matrix.ofRows 1 [[Double.nan]]) ∧
    multiply_serial zeroCell infCell 1 1 1 = .ok (Matrix.ofRows 1 [[Double.nan]]) :=
  ⟨by decide, by decide, by decide!, by decide!⟩

/-- Witness of C9: `[[1, 2], [3, 4]]` and `[[5, 6], [7, 8]]` with a `2 × 2` matrix of
zeros on the other side. -/
theorem multiply_serial_zero_witness :
    (∃ C, multiply_serial sampleA zeros22 ((2 : Nat) : Int) ((2 : Nat) : Int) ((2 : Nat) : Int)
        = .ok C ∧
      C.HasShape 2 2 ∧ ∀ x ∈ C.data, x = Double.zero) ∧
    (∃ C, multiply_serial zeros22 sampleB ((2 : Nat) : Int) ((2 : Nat) : Int) ((2 : Nat) : Int)
        = .ok C ∧
      C.HasShape 2 2 ∧ ∀ x ∈ C.data, x = Double.zero) :=
  multiply_serial_zero sampleA zeros22 zeros22 sampleB 2 2 2 (by decide) (by decide) (by decide)
    (by decide) (by decide) (by decide) (by decide) (by decide) (by decide)

end MatrixMult
